import Mathlib

/-!
Verification of the block-synchronization engine of the NotionEditor
repository (`src/sync/client.py` and `src/sync/sync_to_notion.py`).

The Python code manipulates JSON trees (Python dicts/lists produced by
`json.load`).  We embed JSON values as the inductive type `Json` below.
Python dicts preserve insertion order, assignment to an existing key keeps
its position, and assignment to a fresh key appends at the end; we model a
dict as an ordered association list with exactly those operations.  All
dict keys reachable in this program are strings (the input comes from
`json.load`), so keys are modelled as `String`.

Network transport is abstracted by a response function: for each issued
"append children" request it yields the parsed `results` array of a 200
response, or `none` for a non-2xx response (which the Python code turns
into a raised `Exception`).  Every function that performs requests or
prints diagnostics returns, next to its result, the trace of emitted
events, so that sequencing and abort behaviour are statable.
-/

/-- A JSON value, as produced by `json.load`.  Objects are ordered
association lists with string keys, mirroring Python dict semantics. -/
inductive Json where
  | null
  | bool (b : Bool)
  | num (n : Int)
  | str (s : String)
  | arr (elems : List Json)
  | obj (fields : List (String × Json))
deriving Repr

mutual

/-- Structural equality test for `Json` values (deriving cannot handle the
nesting through `List`, so it is spelt out as a mutual recursion). -/
def Json.beq : Json → Json → Bool
  | .null, .null => true
  | .bool a, .bool b => a == b
  | .num a, .num b => a == b
  | .str a, .str b => a == b
  | .arr a, .arr b => Json.beqElems a b
  | .obj a, .obj b => Json.beqFields a b
  | _, _ => false

/-- Pointwise equality test for lists of `Json` values. -/
def Json.beqElems : List Json → List Json → Bool
  | [], [] => true
  | a :: as, b :: bs => Json.beq a b && Json.beqElems as bs
  | _, _ => false

/-- Pointwise equality test for association lists. -/
def Json.beqFields : List (String × Json) → List (String × Json) → Bool
  | [], [] => true
  | (k, v) :: as, (l, w) :: bs => k == l && Json.beq v w && Json.beqFields as bs
  | _, _ => false

end

mutual

theorem Json.beq_iff : ∀ a b : Json, Json.beq a b = true ↔ a = b
  | .null, .null => by simp [Json.beq]
  | .bool _, .bool _ => by simp [Json.beq]
  | .num _, .num _ => by simp [Json.beq]
  | .str _, .str _ => by simp [Json.beq]
  | .arr a, .arr b => by simp [Json.beq, Json.beqElems_iff a b]
  | .obj a, .obj b => by simp [Json.beq, Json.beqFields_iff a b]
  | .null, .bool _ | .null, .num _ | .null, .str _ | .null, .arr _
  | .null, .obj _ | .bool _, .null | .bool _, .num _ | .bool _, .str _
  | .bool _, .arr _ | .bool _, .obj _ | .num _, .null | .num _, .bool _
  | .num _, .str _ | .num _, .arr _ | .num _, .obj _ | .str _, .null
  | .str _, .bool _ | .str _, .num _ | .str _, .arr _ | .str _, .obj _
  | .arr _, .null | .arr _, .bool _ | .arr _, .num _ | .arr _, .str _
  | .arr _, .obj _ | .obj _, .null | .obj _, .bool _ | .obj _, .num _
  | .obj _, .str _ | .obj _, .arr _ => by simp [Json.beq]

theorem Json.beqElems_iff : ∀ a b : List Json, Json.beqElems a b = true ↔ a = b
  | [], [] => by simp [Json.beqElems]
  | a :: as, b :: bs => by
    simp [Json.beqElems, Json.beq_iff a b, Json.beqElems_iff as bs]
  | [], _ :: _ => by simp [Json.beqElems]
  | _ :: _, [] => by simp [Json.beqElems]

theorem Json.beqFields_iff :
    ∀ a b : List (String × Json), Json.beqFields a b = true ↔ a = b
  | [], [] => by simp [Json.beqFields]
  | (k, v) :: as, (l, w) :: bs => by
    simp [Json.beqFields, Json.beq_iff v w, Json.beqFields_iff as bs,
      and_assoc]
  | [], _ :: _ => by simp [Json.beqFields]
  | _ :: _, [] => by simp [Json.beqFields]

end

instance : DecidableEq Json := fun a b =>
  decidable_of_iff (Json.beq a b = true) (Json.beq_iff a b)

/-- First-match lookup in an association list (Python `d[k]` / `d.get(k)`;
keys are unique in every dict this program builds, so first match is the
match). -/
def dLookup : List (String × Json) → String → Option Json
  | [], _ => none
  | (k, v) :: rest, key => if k = key then some v else dLookup rest key

/-- Python `k in d`. -/
def dContains (kvs : List (String × Json)) (key : String) : Bool :=
  (dLookup kvs key).isSome

/-- Python `d[k] = v`: replace in place if the key exists (keeping its
position), otherwise append at the end. -/
def dSet : List (String × Json) → String → Json → List (String × Json)
  | [], key, v => [(key, v)]
  | (k, w) :: rest, key, v =>
    if k = key then (k, v) :: rest else (k, w) :: dSet rest key v

/-- Python `d.pop(k, None)`: remove the key if present.  A Python dict
holds each key at most once, so removing every matching entry and
removing the one entry coincide on every representable dict; the model
removes all of them, which keeps the erase-then-lookup laws
unconditional. -/
def dErase : List (String × Json) → String → List (String × Json)
  | [], _ => []
  | (k, w) :: rest, key =>
    if k = key then dErase rest key else (k, w) :: dErase rest key

/-- Python `d.setdefault(k, v)` (as a statement): insert `v` at the end if
the key is absent, otherwise leave the dict unchanged. -/
def dSetDefault (kvs : List (String × Json)) (key : String) (v : Json) :
    List (String × Json) :=
  if dContains kvs key then kvs else kvs ++ [(key, v)]

/-- `d.get(k, default)` at the `Json` level: `none`-free variant. -/
def jGetD (j : Json) (key : String) (dflt : Json) : Json :=
  match j with
  | .obj kvs => (dLookup kvs key).getD dflt
  | _ => dflt

/-- `d.get(k)` at the `Json` level (absent → `none`; non-dict → `none`). -/
def jGet (j : Json) (key : String) : Option Json :=
  match j with
  | .obj kvs => dLookup kvs key
  | _ => none

/-- Python `k in j` for a `Json` value known to be a dict (`false`
otherwise). -/
def jContains (j : Json) (key : String) : Bool :=
  match j with
  | .obj kvs => dContains kvs key
  | _ => false

/-- Python `d[k] = v` at the `Json` level (no-op on non-dicts, which the
code never reaches). -/
def jSet (j : Json) (key : String) (v : Json) : Json :=
  match j with
  | .obj kvs => .obj (dSet kvs key v)
  | _ => j

/-- Python `d.pop(k, None)` at the `Json` level. -/
def jErase (j : Json) (key : String) : Json :=
  match j with
  | .obj kvs => .obj (dErase kvs key)
  | _ => j

/-- Python truthiness of a JSON value: `None`, `False`, `0`, `""`, `[]`
and `{}` are falsy, everything else truthy. -/
def truthy : Json → Bool
  | .null => false
  | .bool b => b
  | .num n => n != 0
  | .str s => s ≠ ""
  | .arr xs => !xs.isEmpty
  | .obj kvs => !kvs.isEmpty

/-- Python `a or b` over JSON values. -/
def pyOr (a b : Json) : Json := if truthy a then a else b

/-- Coerce a JSON value to the list it holds (`[]` for anything that is
not an array; the code only reaches the non-array case where Python would
iterate nothing or raise, see the comments at the use sites). -/
def asList : Json → List Json
  | .arr xs => xs
  | _ => []

/-! ### Size lemmas, used for the termination of the tree traversals -/

theorem Json.one_le_sizeOf : ∀ j : Json, 1 ≤ sizeOf j := by
  intro j; cases j <;> simp

theorem dLookup_sizeOf {kvs : List (String × Json)} {key : String} {v : Json}
    (h : dLookup kvs key = some v) : sizeOf v < sizeOf kvs := by
  induction kvs with
  | nil => simp [dLookup] at h
  | cons kv rest ih =>
    obtain ⟨k, w⟩ := kv
    rw [dLookup] at h
    by_cases hk : k = key
    · simp [hk] at h
      subst h
      simp
      omega
    · simp [hk] at h
      have := ih h
      simp
      omega

theorem jGet_sizeOf {j : Json} {key : String} {v : Json}
    (h : jGet j key = some v) : sizeOf v < sizeOf j := by
  cases j <;> simp [jGet] at h
  case obj kvs =>
    have := dLookup_sizeOf h
    simp
    omega

theorem jGetD_eq_or (j : Json) (key : String) (d : Json) :
    jGetD j key d = d ∨ jGet j key = some (jGetD j key d) := by
  cases j <;> simp [jGetD, jGet]
  case obj kvs =>
    cases h : dLookup kvs key <;> simp

theorem jGetD_sizeOf_of_ne {j : Json} {key : String} {d : Json}
    (h : jGetD j key d ≠ d) : sizeOf (jGetD j key d) < sizeOf j := by
  rcases jGetD_eq_or j key d with h' | h'
  · exact absurd h' h
  · exact jGet_sizeOf h'

theorem pyOr_cases (a b : Json) : pyOr a b = a ∨ pyOr a b = b := by
  unfold pyOr; split <;> simp

theorem truthy_pyOr_cases {a b : Json} (h : truthy (pyOr a b)) :
    (pyOr a b = a ∧ truthy a) ∨ pyOr a b = b := by
  unfold pyOr at *
  split at h <;> simp_all

/-! ### Tree Normalizer (`src/sync/sync_to_notion.py`)

All functions below are written as total functions on `Json` values.
Where Python would raise (`.get` on a non-dict, iterating a non-list,
unhashable dict keys), the model returns the neutral value the surrounding
code treats as absent; every such corner is noted at its definition.  On
every input on which the Python functions return at all, the model agrees
with them. -/

/-- `text = (rt.get("plain_text") or rt.get("text", {}).get("content") or "")`
(sync_to_notion.py line 22). -/
def rtText (rt : Json) : Json :=
  pyOr (jGetD rt "plain_text" .null)
    (pyOr (jGetD (jGetD rt "text" (.obj [])) "content" .null) (.str ""))

/-- `if text.strip(): ...` — a span counts when its trimmed text is
non-empty.  A truthy non-string here makes Python crash on `.strip()`;
the model answers `false`. -/
def spanNonBlank (rt : Json) : Bool :=
  match rtText rt with
  | .str s => s.trim ≠ ""
  | _ => false

/-- `has_meaningful_text` (sync_to_notion.py lines 18-25): `false` for a
non-list, otherwise true iff some span has non-blank trimmed text. -/
def has_meaningful_text (rtl : Json) : Bool :=
  match rtl with
  | .arr rts => rts.any spanNonBlank
  | _ => false

/-- `type_payload = blk.get(blk_type, {}) if blk_type else {}`
(sync_to_notion.py line 33).  For a truthy non-string tag Python either
finds nothing in a string-keyed dict (numbers, booleans) or crashes
(unhashable lists/dicts); the model returns `{}`. -/
def prunePayload (blk : Json) : Json :=
  match jGetD blk "type" .null with
  | .str s => if s ≠ "" then jGetD blk s (.obj []) else .obj []
  | _ => .obj []

/-- `children = blk.get("children") or type_payload.get("children") or []`
(line 36), coerced to the list the recursion runs over.  A truthy
non-list value makes Python crash while iterating; the model returns `[]`. -/
def childList (blk : Json) : List Json :=
  asList (pyOr (jGetD blk "children" .null)
    (pyOr (jGetD (prunePayload blk) "children" .null) (.arr [])))

theorem prunePayload_sizeOf (blk : Json) :
    prunePayload blk = .obj [] ∨ sizeOf (prunePayload blk) < sizeOf blk := by
  unfold prunePayload
  split
  case h_1 s heq =>
    split
    · rcases jGetD_eq_or blk s (.obj []) with h | h
      · simp [h]
      · exact Or.inr (jGet_sizeOf h)
    · simp
  case h_2 => simp

theorem childList_sizeOf (blk : Json) :
    sizeOf (childList blk) ≤ sizeOf blk := by
  have hone := Json.one_le_sizeOf blk
  unfold childList
  rcases pyOr_cases (jGetD blk "children" .null)
      (pyOr (jGetD (prunePayload blk) "children" .null) (.arr [])) with h | h <;>
    rw [h]
  · rcases jGetD_eq_or blk "children" .null with h' | h'
    · rw [h']; simp [asList]; omega
    · have := jGet_sizeOf h'
      cases hv : jGetD blk "children" .null <;> simp [asList] <;>
        rw [hv] at this <;> simp at this <;> omega
  · rcases pyOr_cases (jGetD (prunePayload blk) "children" .null) (.arr []) with h2 | h2 <;>
      rw [h2]
    · rcases jGetD_eq_or (prunePayload blk) "children" .null with h' | h'
      · rw [h']; simp [asList]; omega
      · have hlt := jGet_sizeOf h'
        rcases prunePayload_sizeOf blk with hp | hp
        · rw [hp] at h'; simp [jGet, dLookup] at h'
        · cases hv : jGetD (prunePayload blk) "children" .null <;> simp [asList] <;>
            rw [hv] at hlt <;> simp at hlt <;> omega
    · simp [asList]; omega

theorem mem_childList_sizeOf {blk c : Json} (h : c ∈ childList blk) :
    sizeOf c < sizeOf blk := by
  have h1 := List.sizeOf_lt_of_mem h
  have h2 := childList_sizeOf blk
  omega

/-- `is_divider or has_meaningful_text(rich_text) or bool(cleaned_children)`
(sync_to_notion.py lines 47-49), as a function of the original block and
the already-pruned children. -/
def pruneKeepRaw (blk : Json) (cleaned : List Json) : Bool :=
  (jGetD blk "type" .null == .str "divider")
    || has_meaningful_text (jGetD (prunePayload blk) "rich_text" (.arr []))
    || !cleaned.isEmpty

/-- The in-place mutation of a visited block (sync_to_notion.py lines
40-45): attach the cleaned children at the top level when non-empty,
otherwise drop a stale top-level `children` key; then drop a `children`
key nested in the type payload.  Python pops nested children only when
`blk[blk_type]` is a dict holding that key; on a non-dict it either skips
(`in` is false) or crashes, and the model skips. -/
def pruneAttachChildren (blk : Json) (cleaned : List Json) : Json :=
  if !cleaned.isEmpty then jSet blk "children" (.arr cleaned)
  else if jContains blk "children" then jErase blk "children" else blk

def prunePopPayload (blk blk1 : Json) : Json :=
  match jGetD blk "type" .null with
  | .str s =>
    if s ≠ "" && jContains blk1 s then
      match jGet blk1 s with
      | some (.obj p) =>
        if dContains p "children" then jSet blk1 s (.obj (dErase p "children"))
        else blk1
      | _ => blk1
    else blk1
  | _ => blk1

def pruneAttach (blk : Json) (cleaned : List Json) : Json :=
  prunePopPayload blk (pruneAttachChildren blk cleaned)

/-- `prune_empty_blocks` (sync_to_notion.py lines 28-52): recursively
clean the children of each block, mutate the block accordingly, and keep
it iff it is a divider, has meaningful text, or kept a child. -/
def prune_empty_blocks : List Json → List Json
  | [] => []
  | blk :: rest =>
    let cleaned := prune_empty_blocks (childList blk)
    (if pruneKeepRaw blk cleaned then [pruneAttach blk cleaned] else []) ++
      prune_empty_blocks rest
termination_by bs => sizeOf bs
decreasing_by
  · have := childList_sizeOf blk
    simp
    omega
  · simp

/-- The value of an input block after `prune_empty_blocks` has visited it:
the Python function mutates each block of its argument in place, kept or
dropped. -/
def pruneTransform (blk : Json) : Json :=
  pruneAttach blk (prune_empty_blocks (childList blk))

/-- Post-state of the caller's list after `prune_empty_blocks(blocks)`
returns. -/
def pruneEffect (bs : List Json) : List Json := bs.map pruneTransform

/-- Keep-predicate as the specification words it: a node survives iff it
is a divider, or has at least one rich-text span whose trimmed text is
non-empty, or has at least one surviving child.  Stated independently of
the code's reattachment and filtering. -/
def keepSpec (blk : Json) : Bool :=
  (jGetD blk "type" .null == .str "divider")
    || has_meaningful_text (jGetD (prunePayload blk) "rich_text" (.arr []))
    || (childList blk).attach.any (fun c => keepSpec c.1)
termination_by sizeOf blk
decreasing_by
  have := mem_childList_sizeOf c.2
  omega

/-- `payload = block.get(blk_type, {})` (sync_to_notion.py line 58).
Unlike `prunePayload` there is no truthiness guard: an empty-string tag
does look up the `""` key. -/
def blockifyPayload (block tv : Json) : Json :=
  match tv with
  | .str s => jGetD block s (.obj [])
  | _ => .obj []

/-- Per-type defaulting (sync_to_notion.py lines 66-71): to-do gets
`checked=False` if unset; code gets `language="plain text"` if unset, and
the `cpp` alias is rewritten to `c++`.  Python mutates the payload dict in
place; on a non-dict payload it would crash, and the model leaves the
value unchanged. -/
def applyDefaults (tv payload : Json) : Json :=
  if tv == .str "to_do" then
    match payload with
    | .obj p => .obj (dSetDefault p "checked" (.bool false))
    | _ => payload
  else if tv == .str "code" then
    match payload with
    | .obj p =>
      let p1 := dSetDefault p "language" (.str "plain text")
      .obj (if dLookup p1 "language" == some (.str "cpp")
        then dSet p1 "language" (.str "c++") else p1)
    | _ => payload
  else payload

/-- The dict literal `{"object": "block", "type": blk_type, blk_type: payload}`
(sync_to_notion.py lines 59-63), with Python's duplicate-key semantics
(a later duplicate overwrites in place).  For a non-string tag the third
entry would carry a non-string key that no later string lookup observes;
the model omits that entry. -/
def mkBase (tv payload : Json) : Json :=
  match tv with
  | .str s => .obj (dSet [("object", .str "block"), ("type", tv)] s payload)
  | _ => .obj [("object", .str "block"), ("type", tv)]

/-- `children = block.get("children") or payload.get("children")`
(sync_to_notion.py line 74).  Python reads the payload after defaulting,
but defaulting never touches a `children` key (see
`applyDefaults_children`), so reading the raw payload is the same value. -/
def blockifyChildrenV (block : Json) : Json :=
  pyOr (jGetD block "children" .null)
    (jGetD (blockifyPayload block (jGetD block "type" .null)) "children" .null)

theorem dLookup_dSet_self (kvs : List (String × Json)) (k : String) (v : Json) :
    dLookup (dSet kvs k v) k = some v := by
  induction kvs with
  | nil => simp [dSet, dLookup]
  | cons kv rest ih =>
    obtain ⟨k', w⟩ := kv
    rw [dSet]
    by_cases h : k' = k <;> simp [h, dLookup, ih]

theorem dLookup_dSet_ne {k key : String} (kvs : List (String × Json))
    (v : Json) (h : k ≠ key) :
    dLookup (dSet kvs k v) key = dLookup kvs key := by
  induction kvs with
  | nil => simp [dSet, dLookup, h]
  | cons kv rest ih =>
    obtain ⟨k', w⟩ := kv
    rw [dSet]
    by_cases h' : k' = k <;> simp [h', dLookup, ih] <;> subst h' <;>
      simp [h, dLookup]

theorem dLookup_dErase_ne {k key : String} (kvs : List (String × Json))
    (h : k ≠ key) :
    dLookup (dErase kvs k) key = dLookup kvs key := by
  induction kvs with
  | nil => simp [dErase]
  | cons kv rest ih =>
    obtain ⟨k', w⟩ := kv
    rw [dErase]
    by_cases h' : k' = k <;> simp [h', dLookup, ih] <;> subst h' <;>
      simp [h, dLookup]

theorem dLookup_append_single {k key : String} (kvs : List (String × Json))
    (v : Json) (h : k ≠ key) :
    dLookup (kvs ++ [(k, v)]) key = dLookup kvs key := by
  induction kvs with
  | nil => simp [dLookup, h]
  | cons kv rest ih =>
    obtain ⟨k', w⟩ := kv
    rw [List.cons_append, dLookup, dLookup]
    split <;> simp [ih]

theorem dLookup_dSetDefault_ne {k key : String} (kvs : List (String × Json))
    (v : Json) (h : k ≠ key) :
    dLookup (dSetDefault kvs k v) key = dLookup kvs key := by
  unfold dSetDefault
  split
  · rfl
  · exact dLookup_append_single kvs v h

theorem applyDefaults_children (tv payload : Json) :
    jGet (applyDefaults tv payload) "children" = jGet payload "children" := by
  unfold applyDefaults
  split
  · cases payload <;> simp [jGet]
    case obj p => exact dLookup_dSetDefault_ne p _ (by decide)
  · split
    · cases payload <;> simp [jGet]
      case obj p =>
        split
        · rw [dLookup_dSet_ne _ _ (by decide),
            dLookup_dSetDefault_ne _ _ (by decide)]
        · rw [dLookup_dSetDefault_ne _ _ (by decide)]
    · rfl

theorem blockifyPayload_sizeOf (block tv : Json) :
    blockifyPayload block tv = .obj [] ∨
      sizeOf (blockifyPayload block tv) < sizeOf block := by
  unfold blockifyPayload
  split
  case h_1 s =>
    rcases jGetD_eq_or block s (.obj []) with h | h
    · simp [h]
    · exact Or.inr (jGet_sizeOf h)
  case h_2 => simp

theorem blockifyChildrenV_sizeOf {block : Json}
    (h : truthy (blockifyChildrenV block)) :
    sizeOf (blockifyChildrenV block) < sizeOf block := by
  unfold blockifyChildrenV at *
  rcases truthy_pyOr_cases h with ⟨heq, htr⟩ | heq <;> rw [heq] at h ⊢
  · rcases jGetD_eq_or block "children" .null with h' | h'
    · rw [h'] at htr; simp [truthy] at htr
    · exact jGet_sizeOf h'
  · rcases jGetD_eq_or (blockifyPayload block (jGetD block "type" .null))
        "children" .null with h' | h'
    · rw [h'] at h; simp [truthy] at h
    · have hlt := jGet_sizeOf h'
      rcases blockifyPayload_sizeOf block (jGetD block "type" .null) with hp | hp
      · rw [hp] at h'; simp [jGet, dLookup] at h'
      · omega

/-- `notion_blockify` (sync_to_notion.py lines 55-77): rebuild the block
in wire shape, apply per-type defaults, and move the children (top-level
or payload-nested) to a top-level `children` key, recursing into them.
A truthy non-list `children` value is attached as-is (Python would crash
iterating it; this branch is unreachable from normalized input). -/
def notion_blockify (block : Json) : Json :=
  let tv := jGetD block "type" .null
  let base := mkBase tv (applyDefaults tv (blockifyPayload block tv))
  match hm : blockifyChildrenV block with
  | .arr cs =>
    if hcs : cs.isEmpty then base
    else jSet base "children" (.arr (cs.attach.map (fun c => notion_blockify c.1)))
  | cv => if truthy cv then jSet base "children" cv else base
termination_by sizeOf block
decreasing_by
  have h1 : truthy (blockifyChildrenV block) := by
    rw [hm]
    simpa [truthy] using hcs
  have h2 := blockifyChildrenV_sizeOf h1
  rw [hm] at h2
  have h3 := List.sizeOf_lt_of_mem c.2
  simp at h2
  omega

/-- The normalization composed in `load_blocks_from_json`
(sync_to_notion.py lines 89-90): prune, then wire-shape every surviving
top-level block. -/
def normalizeBlocks (bs : List Json) : List Json :=
  (prune_empty_blocks bs).map notion_blockify

/-! ### Recursive Uploader (`src/sync/client.py`)

The transport is abstracted by a response function
`resp : Json → List Json → Option (List Json)`: for a PATCH to
`blocks/{id}/children` carrying one batch it yields the parsed `results`
array of a 200 response, or `none` for a non-2xx response (which
`append_block_children` turns into a raised `Exception`).  The page
creation POST is abstracted by an `Option Json` holding its parsed
response.  Every issued request and every printed diagnostic is traced
as an `Event`, so sequencing and abort behaviour are statable. -/

/-- One observable step of the client: a page-creation POST, an
append-children PATCH, or a printed diagnostic. -/
inductive Event where
  | createPage (payload : Json)
  | appendChildren (blockId : Json) (children : List Json)
  | warn (msg : String)
deriving Repr, DecidableEq

/-- `for i in range(0, len(children), batch_size)` with `batch_size = 100`
(client.py lines 122-124): the successive slices `children[i:i+100]`. -/
def chunkList : List Json → List (List Json)
  | [] => []
  | x :: rest => ((x :: rest).take 100) :: chunkList ((x :: rest).drop 100)
termination_by xs => xs.length
decreasing_by simp; omega

/-- One PATCH per batch, extending `all_results` with
`data.get("results", [])` (client.py lines 119-133).  A non-200 response
raises after the failing request was issued, so that request stays in the
trace. -/
def appendLoop (resp : Json → List Json → Option (List Json))
    (blockId : Json) : List (List Json) → List Event × Except String (List Json)
  | [] => ([], .ok [])
  | batch :: rest =>
    match resp blockId batch with
    | none => ([.appendChildren blockId batch],
        .error "Failed to append children")
    | some results =>
      let (tr, r) := appendLoop resp blockId rest
      (.appendChildren blockId batch :: tr,
        match r with
        | .ok more => .ok (results ++ more)
        | .error e => .error e)

/-- `append_block_children` (client.py lines 109-134): batch the children
100 at a time, issue one PATCH per batch in order, and concatenate the
per-batch results. -/
def append_block_children (resp : Json → List Json → Option (List Json))
    (blockId : Json) (children : List Json) :
    List Event × Except String (List Json) :=
  appendLoop resp blockId (chunkList children)

/-- `b_copy = b.copy(); b_copy.pop("id", None); b_copy.pop("children", None)`
(client.py lines 160-165), the copy both pops act on. -/
def stripCore (kvs : List (String × Json)) : List (String × Json) :=
  dErase (dErase kvs "id") "children"

/-- Wire-shape copy of one block (client.py lines 156-175): shallow-copy,
pop `id` and the top-level `children` key, and when the type tag is a
truthy string naming a dict entry, replace that payload by a copy without
its `children` key.  Every pop acts on a copy, so the input block is left
untouched.  A truthy unhashable type tag (non-empty list/dict) makes
`type_name in b_copy` raise `TypeError`; a non-dict input raises the
`TypeError` of line 158. -/
def stripObj (kvs : List (String × Json)) : Except String Json :=
  match dLookup (stripCore kvs) "type" with
  | some (.str s) =>
    if s ≠ "" && dContains (stripCore kvs) s then
      match dLookup (stripCore kvs) s with
      | some (.obj p) =>
        if dContains p "children" then
          .ok (.obj (dSet (stripCore kvs) s (.obj (dErase p "children"))))
        else .ok (.obj (stripCore kvs))
      | _ => .ok (.obj (stripCore kvs))
    else .ok (.obj (stripCore kvs))
  | some (.arr es) =>
    if es.isEmpty then .ok (.obj (stripCore kvs))
    else .error "TypeError: unhashable type"
  | some (.obj p) =>
    if p.isEmpty then .ok (.obj (stripCore kvs))
    else .error "TypeError: unhashable type"
  | _ => .ok (.obj (stripCore kvs))

def stripBlock : Json → Except String Json
  | .obj kvs => stripObj kvs
  | _ => .error "Each block should be a dict."

/-- The strip loop over one level (client.py lines 155-175); the first
non-dict block raises before any request is made. -/
def stripAll : List Json → Except String (List Json)
  | [] => .ok []
  | b :: rest =>
    match stripBlock b with
    | .error e => .error e
    | .ok w =>
      match stripAll rest with
      | .error e => .error e
      | .ok ws => .ok (w :: ws)

/-- Which children the uploader recurses into (client.py lines 186-192):
a present top-level `children` key wins outright, whatever its value;
otherwise a truthy string type tag naming an entry yields that payload's
`children` (default `[]`); otherwise `[]`.  `original[type_name].get` on
a non-dict payload raises `AttributeError`; a truthy unhashable tag
raises `TypeError`. -/
def childrenForUpload (o : Json) : Except String Json :=
  if jContains o "children" then .ok (jGetD o "children" .null)
  else match jGetD o "type" .null with
    | .str s =>
      if s ≠ "" && jContains o s then
        match jGet o s with
        | some (.obj p) => .ok ((dLookup p "children").getD (.arr []))
        | some _ => .error "AttributeError: no attribute get"
        | none => .ok (.arr [])
      else .ok (.arr [])
    | .arr es =>
      if es.isEmpty then .ok (.arr []) else .error "TypeError: unhashable type"
    | .obj p =>
      if p.isEmpty then .ok (.arr []) else .error "TypeError: unhashable type"
    | _ => .ok (.arr [])

theorem childrenForUpload_sizeOf {o cv : Json}
    (h : childrenForUpload o = .ok cv) : sizeOf cv ≤ sizeOf o + 1 := by
  have hone := Json.one_le_sizeOf o
  unfold childrenForUpload at h
  split at h
  · simp at h
    subst h
    rcases jGetD_eq_or o "children" .null with h' | h'
    · rw [h']
      have : sizeOf Json.null = 1 := by simp
      omega
    · have := jGet_sizeOf h'; omega
  · split at h
    case h_1 s =>
      split at h
      · split at h
        case h_1 p heq =>
          simp at h
          subst h
          have hp := jGet_sizeOf heq
          cases h2 : dLookup p "children" with
          | none => simp [h2]; simp at hp; omega
          | some v =>
            have := dLookup_sizeOf h2
            simp [h2]
            simp at hp
            omega
        case h_2 => simp at h
        case h_3 =>
          simp at h
          subst h
          simp
          omega
      · simp at h
        subst h
        simp
        omega
    case h_2 es =>
      split at h <;> simp at h
      subst h
      simp
      omega
    case h_3 p =>
      split at h <;> simp at h
      subst h
      simp
      omega
    case h_4 =>
      simp at h
      subst h
      simp
      omega

/-- `blocks = blocks.get("children") or blocks.get("results") or []`
(client.py lines 147-148), applied only to dict arguments; everything
else passes through to the `isinstance(blocks, list)` check. -/
def coerceBlocks (blocks : Json) : Json :=
  match blocks with
  | .obj kvs =>
    pyOr ((dLookup kvs "children").getD .null)
      (pyOr ((dLookup kvs "results").getD .null) (.arr []))
  | _ => blocks

theorem coerceBlocks_sizeOf {blocks : Json} {xs : List Json}
    (h : coerceBlocks blocks = .arr xs) : sizeOf xs < sizeOf blocks := by
  unfold coerceBlocks at h
  split at h
  case h_1 kvs =>
    rcases pyOr_cases ((dLookup kvs "children").getD .null)
        (pyOr ((dLookup kvs "results").getD .null) (.arr [])) with h1 | h1 <;>
      rw [h1] at h
    · cases h2 : dLookup kvs "children" with
      | none => rw [h2] at h; simp at h
      | some v =>
        have := dLookup_sizeOf h2
        rw [h2] at h
        simp at h
        subst h
        simp at this ⊢
        omega
    · rcases pyOr_cases ((dLookup kvs "results").getD .null) (.arr []) with h2 | h2 <;>
        rw [h2] at h
      · cases h3 : dLookup kvs "results" with
        | none => rw [h3] at h; simp at h
        | some v =>
          have := dLookup_sizeOf h3
          rw [h3] at h
          simp at h
          subst h
          simp at this ⊢
          omega
      · simp at h
        subst h
        have : 1 ≤ sizeOf kvs := by
          cases kvs
          · simp
          · simp; omega
        simp
        omega
  case h_2 =>
    subst h
    simp

theorem jsonList_one_le_sizeOf : ∀ l : List Json, 1 ≤ sizeOf l
  | [] => by simp
  | a :: as => by simp; omega

mutual

/-- `upload_blocks_recursively` (client.py lines 136-195): return on a
falsy argument; coerce a dict argument to its `children`/`results` list;
raise on a non-list; otherwise upload the level. -/
def upload_blocks_recursively (resp : Json → List Json → Option (List Json))
    (parentId : Json) (blocks : Json) : List Event × Except String Unit :=
  if truthy blocks = false then ([], .ok ())
  else
    match hb : coerceBlocks blocks with
    | .arr xs => uploadLevel resp parentId xs
    | _ => ([], .error "TypeError: Expected a list of blocks")
termination_by (sizeOf blocks, 2)
decreasing_by
  exact Prod.Lex.left _ _ (coerceBlocks_sizeOf hb)

/-- One level of the upload (client.py lines 153-195): strip every block,
append the stripped level in batches, abort with a printed warning on a
count mismatch, otherwise recurse positionally. -/
def uploadLevel (resp : Json → List Json → Option (List Json))
    (parentId : Json) (xs : List Json) : List Event × Except String Unit :=
  match stripAll xs with
  | .error e => ([], .error e)
  | .ok payloads =>
    match append_block_children resp parentId payloads with
    | (tr, .error e) => (tr, .error e)
    | (tr, .ok created) =>
      if created.length ≠ xs.length then
        (tr ++ [.warn ("Warning: Mismatch in uploaded blocks count. Sent " ++
          toString xs.length ++ ", got " ++ toString created.length)], .ok ())
      else
        let z := uploadZip resp xs created
        (tr ++ z.1, z.2)
termination_by (sizeOf xs, 1)
decreasing_by
  exact Prod.Lex.right (sizeOf xs) (by omega)

/-- `for original, created in zip(blocks, created_blocks)` (client.py
lines 185-195): for each index in order, extract the original's children
and, when truthy, recursively upload them under `created["id"]`.  A
missing `id` (or a non-dict descriptor) raises `KeyError`/`TypeError`. -/
def uploadZip (resp : Json → List Json → Option (List Json)) :
    List Json → List Json → List Event × Except String Unit
  | [], _ => ([], .ok ())
  | _ :: _, [] => ([], .ok ())
  | o :: os, c :: cs =>
    match hcv : childrenForUpload o with
    | .error e => ([], .error e)
    | .ok cv =>
      if truthy cv then
        match jGet c "id" with
        | some cid =>
          match upload_blocks_recursively resp cid cv with
          | (t1, .error e) => (t1, .error e)
          | (t1, .ok _) =>
            let z := uploadZip resp os cs
            (t1 ++ z.1, z.2)
        | none => ([], .error "KeyError: id")
      else uploadZip resp os cs
termination_by xs _ => (sizeOf xs, 0)
decreasing_by
  all_goals apply Prod.Lex.left
  all_goals simp
  all_goals
    first
    | (have h1 := childrenForUpload_sizeOf hcv
       have h2 := jsonList_one_le_sizeOf os
       omega)
    | (have h3 := Json.one_le_sizeOf o
       omega)

end

/-- The page-creation payload (client.py lines 204-217): a parent pointer
and a title property — no `children` key. -/
def pagePayload (parentPageId title : String) : Json :=
  .obj [("parent", .obj [("page_id", .str parentPageId)]),
        ("properties", .obj [("title", .obj [("title",
          .arr [.obj [("text", .obj [("content", .str title)])]])])])]

/-- `create_page_from_raw_blocks` (client.py lines 197-235): one POST that
creates the page without content children; on success, the blocks are
uploaded recursively against the returned page id; an upload failure is
printed and re-raised after the page already exists, and nothing is ever
deleted.  `pageResp` abstracts the POST response (`none` = non-200). -/
def create_page_from_raw_blocks (pageResp : Option Json)
    (resp : Json → List Json → Option (List Json))
    (parentPageId title : String) (blocksJson : Json) :
    List Event × Except String Json :=
  let payload := pagePayload parentPageId title
  match pageResp with
  | none => ([.createPage payload], .error "Failed to create page")
  | some pageData =>
    match jGet pageData "id" with
    | none => ([.createPage payload], .error "KeyError: id")
    | some pageId =>
      match upload_blocks_recursively resp pageId blocksJson with
      | (tr, .error e) =>
        (.createPage payload :: (tr ++
          [.warn ("Error uploading blocks recursively: " ++ e)]), .error e)
      | (tr, .ok _) => (.createPage payload :: tr, .ok pageData)

/-! ### Batching lemmas (claim C2) -/

theorem chunkList_join : ∀ xs : List Json, (chunkList xs).flatten = xs := by
  intro xs
  induction xs using chunkList.induct with
  | case1 => simp [chunkList]
  | case2 x rest ih =>
    rw [chunkList]
    simp only [List.flatten_cons, ih]
    exact List.take_append_drop 100 (x :: rest)

theorem chunkList_length : ∀ xs : List Json,
    (chunkList xs).length = (xs.length + 99) / 100 := by
  intro xs
  induction xs using chunkList.induct with
  | case1 => simp [chunkList]
  | case2 x rest ih =>
    rw [chunkList]
    simp only [List.length_cons, ih, List.length_drop]
    omega

theorem chunkList_le_100 : ∀ xs : List Json, ∀ c ∈ chunkList xs,
    c.length ≤ 100 := by
  intro xs
  induction xs using chunkList.induct with
  | case1 => simp [chunkList]
  | case2 x rest ih =>
    rw [chunkList]
    intro c hc
    rcases List.mem_cons.mp hc with h | h
    · subst h
      simpa using List.length_take_le 100 (x :: rest)
    · exact ih c h

theorem appendLoop_ok (resp : Json → List Json → Option (List Json))
    (blockId : Json) (f : List Json → List Json)
    (hresp : ∀ b, resp blockId b = some (f b)) :
    ∀ batches, appendLoop resp blockId batches =
      (batches.map (Event.appendChildren blockId), .ok (batches.map f).flatten)
  | [] => by simp [appendLoop]
  | batch :: rest => by
    rw [appendLoop, hresp batch, appendLoop_ok resp blockId f hresp rest]
    simp

theorem chunkList_map_length_250 (xs : List Json) (h : xs.length = 250) :
    (chunkList xs).map List.length = [100, 100, 50] := by
  cases xs with
  | nil => simp at h
  | cons x rest =>
    rw [chunkList]
    cases hd : (x :: rest).drop 100 with
    | nil =>
      exfalso
      have := congrArg List.length hd
      simp at this
      simp at h
      omega
    | cons y ys =>
      have hlen : (y :: ys).length = 150 := by
        have := congrArg List.length hd
        simp at this ⊢
        simp at h
        omega
      rw [chunkList]
      cases hd2 : (y :: ys).drop 100 with
      | nil =>
        exfalso
        have := congrArg List.length hd2
        simp at this
        simp at hlen
        omega
      | cons z zs =>
        have hlen2 : (z :: zs).length = 50 := by
          have := congrArg List.length hd2
          simp at this ⊢
          simp at hlen
          omega
        rw [chunkList]
        cases hd3 : (z :: zs).drop 100 with
        | cons w ws =>
          exfalso
          have := congrArg List.length hd3
          simp at this
          simp at hlen2
          omega
        | nil =>
          rw [chunkList]
          simp at h hlen hlen2 ⊢
          omega

/-- Claim C2: for every list of N children payloads,
`append_block_children` issues exactly ceil(N/100) append writes, each
carrying at most 100 elements and preserving input order (the batches in
request order concatenate back to the input; 250 siblings yield exactly
3 calls of sizes 100, 100, 50), and returns the concatenation of the
per-batch response results in batch order; when the service returns one
descriptor per submitted element, the returned sequence is the input
mapped positionally, hence of length N in original order. -/
theorem C2_append_block_children_batching
    (resp : Json → List Json → Option (List Json)) (blockId : Json)
    (children : List Json) (f : List Json → List Json)
    (hresp : ∀ b, resp blockId b = some (f b)) :
    (append_block_children resp blockId children).1 =
        (chunkList children).map (Event.appendChildren blockId) ∧
    (append_block_children resp blockId children).1.length =
        (children.length + 99) / 100 ∧
    (∀ b, Event.appendChildren blockId b ∈
        (append_block_children resp blockId children).1 → b.length ≤ 100) ∧
    (chunkList children).flatten = children ∧
    (append_block_children resp blockId children).2 =
        .ok ((chunkList children).map f).flatten ∧
    (∀ g : Json → Json, (∀ b, f b = b.map g) →
      (append_block_children resp blockId children).2 =
        .ok (children.map g)) ∧
    (children.length = 250 →
      (append_block_children resp blockId children).1.length = 3 ∧
      (chunkList children).map List.length = [100, 100, 50]) := by
  have hloop := appendLoop_ok resp blockId f hresp (chunkList children)
  unfold append_block_children
  rw [hloop]
  refine ⟨rfl, ?_, ?_, chunkList_join children, rfl, ?_, ?_⟩
  · simp [chunkList_length]
  · intro b hb
    simp only [List.mem_map] at hb
    obtain ⟨c, hc, hcb⟩ := hb
    cases hcb
    exact chunkList_le_100 children b hc
  · intro g hg
    have hmap : (chunkList children).map f =
        (chunkList children).map (List.map g) :=
      List.map_congr_left (fun c _ => hg c)
    rw [hmap, ← List.map_join, chunkList_join]
  · intro h250
    constructor
    · simp [chunkList_length, h250]
    · exact chunkList_map_length_250 children h250

/-- Witness for C2 at a concrete input: two children, an echo service. -/
theorem C2_append_block_children_batching_witness :
    (append_block_children (fun _ b => some b) (.str "w")
        [.null, .bool true]).1 =
      [.appendChildren (.str "w") [.null, .bool true]] ∧
    (append_block_children (fun _ b => some b) (.str "w")
        [.null, .bool true]).2 = .ok [.null, .bool true] := by
  have h := C2_append_block_children_batching (fun _ b => some b) (.str "w")
    [.null, .bool true] id (fun _ => rfl)
  obtain ⟨h1, _, _, _, _, h6, _⟩ := h
  constructor
  · rw [h1, chunkList]
    simp [chunkList]
  · rw [h6 id (fun b => (List.map_id b).symm)]
    simp

/-! ### Wire-payload shape (claim C4) -/

theorem dErase_map_fst_sublist (kvs : List (String × Json)) (k : String) :
    ((dErase kvs k).map Prod.fst).Sublist (kvs.map Prod.fst) := by
  induction kvs with
  | nil => simp [dErase]
  | cons kv rest ih =>
    obtain ⟨k', w⟩ := kv
    rw [dErase]
    split
    · exact ih.trans (List.sublist_cons_self _ _)
    · simpa using ih

theorem dLookup_none_of_not_mem {kvs : List (String × Json)} {k : String}
    (h : k ∉ kvs.map Prod.fst) : dLookup kvs k = none := by
  induction kvs with
  | nil => rfl
  | cons kv rest ih =>
    obtain ⟨k', w⟩ := kv
    simp only [List.map_cons, List.mem_cons] at h
    push_neg at h
    rw [dLookup]
    split
    · exact absurd ‹k' = k› (fun he => h.1 he.symm)
    · exact ih h.2

theorem dLookup_mem_of_some {kvs : List (String × Json)} {k : String} {v : Json}
    (h : dLookup kvs k = some v) : k ∈ kvs.map Prod.fst := by
  induction kvs with
  | nil => simp [dLookup] at h
  | cons kv rest ih =>
    obtain ⟨k', w⟩ := kv
    rw [dLookup] at h
    split at h
    · subst ‹k' = k›
      simp
    · simpa using Or.inr (ih h)

theorem not_mem_dErase_self {kvs : List (String × Json)} {k : String} :
    k ∉ (dErase kvs k).map Prod.fst := by
  induction kvs with
  | nil => simp [dErase]
  | cons kv rest ih =>
    obtain ⟨k', w⟩ := kv
    rw [dErase]
    split
    · exact ih
    · simp only [List.map_cons, List.mem_cons]
      push_neg
      exact ⟨fun he => ‹¬k' = k› he.symm, ih⟩

theorem dLookup_dErase_self {kvs : List (String × Json)} {k : String} :
    dLookup (dErase kvs k) k = none :=
  dLookup_none_of_not_mem not_mem_dErase_self

/-- The strip phase threaded with the caller's list: every `pop` in lines
156-175 is applied to `b.copy()` or `type_obj.copy()`, never to a block of
`blocks`, so the post-state of the caller's list is the input itself. -/
def stripAllM (xs : List Json) : Except String (List Json × List Json) :=
  match stripAll xs with
  | .ok ws => .ok (ws, xs)
  | .error e => .error e

theorem dLookup_mem {kvs : List (String × Json)} {k : String} {v : Json}
    (h : dLookup kvs k = some v) : (k, v) ∈ kvs := by
  induction kvs with
  | nil => simp [dLookup] at h
  | cons kv rest ih =>
    obtain ⟨k', w⟩ := kv
    rw [dLookup] at h
    split at h
    · subst ‹k' = k›
      simp at h
      simp [h]
    · simp [ih h]

/-- A dict value has pairwise-distinct keys (trivially true for
non-dicts); every value a Python dict can hold satisfies this. -/
def valueKeysNodup (v : Json) : Bool :=
  match v with
  | .obj p => decide (p.map Prod.fst).Nodup
  | _ => true

/-- Claim C4: for every block dict, the wire payload built by the strip
phase contains no `id` key, no top-level `children` key, and no
`children` key inside its type-tag payload; and the strip phase leaves
the caller's block list and every block in it unchanged — every pop acts
on `b.copy()` or `type_obj.copy()`, so the threaded post-state is the
input itself. -/
theorem C4_wire_payload_shape (kvs : List (String × Json)) (w : Json)
    (hw : stripBlock (.obj kvs) = .ok w) :
    jGet w "id" = none ∧
    jContains w "children" = false ∧
    (∀ t p, jGet w "type" = some (.str t) → t ≠ "" →
      jGet w t = some (.obj p) → dContains p "children" = false) ∧
    (∀ xs ws post, stripAllM xs = .ok (ws, post) → post = xs) := by
  have hstripM : ∀ xs ws post, stripAllM xs = .ok (ws, post) → post = xs := by
    intro xs ws post h
    unfold stripAllM at h
    split at h
    · simp at h
      exact h.2.symm
    · simp at h
  have hid : dLookup (stripCore kvs) "id" = none := by
    unfold stripCore
    rw [dLookup_dErase_ne _ (by decide)]
    exact dLookup_dErase_self
  have hch : dLookup (stripCore kvs) "children" = none :=
    dLookup_dErase_self
  have hkeep : ∀ s, s ≠ "id" → s ≠ "children" →
      dLookup (stripCore kvs) s = dLookup kvs s := by
    intro s h1 h2
    unfold stripCore
    rw [dLookup_dErase_ne _ (fun he => h2 he.symm),
      dLookup_dErase_ne _ (fun he => h1 he.symm)]
  have base12 : jGet (.obj (stripCore kvs)) "id" = none ∧
      jContains (.obj (stripCore kvs)) "children" = false := by
    simp [jGet, jContains, dContains, hid, hch]
  have hw2 : stripObj kvs = .ok w := hw
  unfold stripObj at hw2
  split at hw2
  case h_1 s heq =>
    split at hw2
    case isTrue hcond =>
      simp only [Bool.and_eq_true, decide_eq_true_eq] at hcond
      obtain ⟨hsne, hscont⟩ := hcond
      have hsid : s ≠ "id" := by
        intro he
        rw [he] at hscont
        simp [dContains, hid] at hscont
      have hsch : s ≠ "children" := by
        intro he
        rw [he] at hscont
        simp [dContains, hch] at hscont
      split at hw2
      case h_1 p0 heqp =>
        split at hw2
        case isTrue hpc =>
          simp only [Except.ok.injEq] at hw2
          subst hw2
          refine ⟨?_, ?_, ?_, hstripM⟩
          · simp only [jGet]
            rw [dLookup_dSet_ne _ _ hsid]
            exact hid
          · simp only [jContains, dContains]
            rw [dLookup_dSet_ne _ _ hsch]
            simp [hch]
          · intro t p htype hne hpt
            by_cases hst : s = "type"
            · rw [hst] at htype
              simp only [jGet, dLookup_dSet_self] at htype
              cases htype
            · simp only [jGet] at htype hpt
              rw [dLookup_dSet_ne _ _ hst, heq] at htype
              cases htype
              rw [dLookup_dSet_self] at hpt
              obtain rfl : p = dErase p0 "children" := by
                cases hpt
                rfl
              simp [dContains, dLookup_dErase_self]
        case isFalse hpc =>
          simp only [Except.ok.injEq] at hw2
          subst hw2
          refine ⟨base12.1, base12.2, ?_, hstripM⟩
          intro t p htype hne hpt
          simp only [jGet, heq] at htype
          cases htype
          simp only [jGet, heqp] at hpt
          cases hpt
          simpa using hpc
      case h_2 hne2 =>
        simp only [Except.ok.injEq] at hw2
        subst hw2
        refine ⟨base12.1, base12.2, ?_, hstripM⟩
        intro t p htype hne hpt
        simp only [jGet, heq] at htype
        cases htype
        simp only [jGet] at hpt
        exact (hne2 p hpt).elim
    case isFalse hcond =>
      simp only [Except.ok.injEq] at hw2
      subst hw2
      refine ⟨base12.1, base12.2, ?_, hstripM⟩
      intro t p htype hne hpt
      simp only [jGet, heq] at htype
      cases htype
      simp only [jGet] at hpt
      simp only [Bool.and_eq_true, decide_eq_true_eq, not_and] at hcond
      have hc := hcond hne
      simp [dContains, hpt] at hc
  case h_2 es heq =>
    split at hw2
    · simp only [Except.ok.injEq] at hw2
      subst hw2
      refine ⟨base12.1, base12.2, ?_, hstripM⟩
      intro t p htype hne hpt
      rw [jGet, heq] at htype
      cases htype
    · exact absurd hw2 (by simp)
  case h_3 p0 heq =>
    split at hw2
    · simp only [Except.ok.injEq] at hw2
      subst hw2
      refine ⟨base12.1, base12.2, ?_, hstripM⟩
      intro t p htype hne hpt
      rw [jGet, heq] at htype
      cases htype
    · exact absurd hw2 (by simp)
  case h_4 hx1 hx2 hx3 =>
    simp only [Except.ok.injEq] at hw2
    subst hw2
    refine ⟨base12.1, base12.2, ?_, hstripM⟩
    intro t p htype hne hpt
    rw [jGet] at htype
    exact absurd htype (by simpa using hx1 t)

/-- Witness for C4 at a concrete block carrying an `id`, a top-level
`children` list and payload-nested children. -/
theorem C4_wire_payload_shape_witness :
    jGet (.obj [("type", Json.str "toggle"),
      ("toggle", Json.obj [("rich_text", Json.arr [])])]) "id" = none ∧
    jContains (.obj [("type", Json.str "toggle"),
      ("toggle", Json.obj [("rich_text", Json.arr [])])]) "children" = false ∧
    dContains [("rich_text", Json.arr [])] "children" = false := by
  have h := C4_wire_payload_shape
    [("id", Json.str "x"), ("type", Json.str "toggle"),
     ("toggle", Json.obj [("rich_text", Json.arr []),
       ("children", Json.arr [Json.null])]),
     ("children", Json.arr [Json.null])]
    (.obj [("type", Json.str "toggle"),
      ("toggle", Json.obj [("rich_text", Json.arr [])])])
    (by rfl)
  exact ⟨h.1, h.2.1,
    h.2.2.1 "toggle" [("rich_text", Json.arr [])] (by decide) (by decide)
      (by decide)⟩

/-! ### Defaulting (claim C9) -/

theorem dLookup_append (xs ys : List (String × Json)) (k : String) :
    dLookup (xs ++ ys) k =
      match dLookup xs k with
      | some v => some v
      | none => dLookup ys k := by
  induction xs with
  | nil => simp [dLookup]
  | cons kv rest ih =>
    obtain ⟨k', w⟩ := kv
    rw [List.cons_append, dLookup, dLookup]
    split <;> simp [ih]

theorem dLookup_dSetDefault_self (p : List (String × Json)) (k : String)
    (v : Json) :
    dLookup (dSetDefault p k v) k = some ((dLookup p k).getD v) := by
  unfold dSetDefault dContains
  split
  case isTrue h =>
    rw [Option.isSome_iff_exists] at h
    obtain ⟨w, hw⟩ := h
    simp [hw]
  case isFalse h =>
    rw [Option.isSome_iff_exists] at h
    push_neg at h
    have hnone : dLookup p k = none := by
      cases hl : dLookup p k with
      | none => rfl
      | some w => exact absurd hl (h w)
    rw [dLookup_append, hnone]
    simp [dLookup]

/-- The type-tag entry of a `notion_blockify` result is the defaulted
payload, as long as the tag is not the string `"children"` (which the
children reattachment could overwrite). -/
theorem notion_blockify_payload (block : Json) (s : String)
    (hs : jGetD block "type" .null = .str s) (hch : s ≠ "children") :
    jGet (notion_blockify block) s =
      some (applyDefaults (.str s) (blockifyPayload block (.str s))) := by
  rw [notion_blockify]
  rw [hs]
  have hbase : jGet (mkBase (.str s)
      (applyDefaults (.str s) (blockifyPayload block (.str s)))) s =
      some (applyDefaults (.str s) (blockifyPayload block (.str s))) := by
    unfold mkBase
    simp [jGet, dLookup_dSet_self]
  split
  · split
    · exact hbase
    · unfold mkBase at hbase ⊢
      simp only [jGet, jSet] at hbase ⊢
      rw [dLookup_dSet_ne _ _ (fun he => hch he.symm)]
      exact hbase
  · split
    · unfold mkBase at hbase ⊢
      simp only [jGet, jSet] at hbase ⊢
      rw [dLookup_dSet_ne _ _ (fun he => hch he.symm)]
      exact hbase
    · exact hbase

/-- Lookup of one property inside the type-tag payload of a wire-shaped
block (used to state the defaulting claims). -/
def payloadProp (b : Json) (s key : String) : Option Json :=
  match jGet b s with
  | some (.obj p') => dLookup p' key
  | _ => none

/-- Claim C9: normalization applies per-type defaults exactly once: a
to-do payload without `checked` comes out with `checked=false`, a code
payload without `language` comes out with `language="plain text"`, a code
payload with `language="cpp"` comes out with the accepted alias `c++`,
and payloads already carrying these properties (other than the `cpp`
alias) keep their values. -/
theorem C9_blockify_defaults (block : Json) (p : List (String × Json)) :
    (jGetD block "type" .null = .str "to_do" →
      blockifyPayload block (.str "to_do") = .obj p →
      dContains p "checked" = false →
      payloadProp (notion_blockify block) "to_do" "checked" =
        some (.bool false)) ∧
    (jGetD block "type" .null = .str "to_do" →
      blockifyPayload block (.str "to_do") = .obj p →
      ∀ v, dLookup p "checked" = some v →
      payloadProp (notion_blockify block) "to_do" "checked" = some v) ∧
    (jGetD block "type" .null = .str "code" →
      blockifyPayload block (.str "code") = .obj p →
      dContains p "language" = false →
      payloadProp (notion_blockify block) "code" "language" =
        some (.str "plain text")) ∧
    (jGetD block "type" .null = .str "code" →
      blockifyPayload block (.str "code") = .obj p →
      dLookup p "language" = some (.str "cpp") →
      payloadProp (notion_blockify block) "code" "language" =
        some (.str "c++")) ∧
    (jGetD block "type" .null = .str "code" →
      blockifyPayload block (.str "code") = .obj p →
      ∀ v, dLookup p "language" = some v → v ≠ .str "cpp" →
      payloadProp (notion_blockify block) "code" "language" = some v) := by
  have htodo : ∀ (htv : jGetD block "type" .null = .str "to_do")
      (hpay : blockifyPayload block (.str "to_do") = .obj p),
      payloadProp (notion_blockify block) "to_do" "checked" =
        some ((dLookup p "checked").getD (.bool false)) := by
    intro htv hpay
    have h := notion_blockify_payload block "to_do" htv (by decide)
    rw [hpay] at h
    have hdef : applyDefaults (.str "to_do") (.obj p) =
        .obj (dSetDefault p "checked" (.bool false)) := by
      simp [applyDefaults]
    rw [hdef] at h
    unfold payloadProp
    rw [h]
    exact dLookup_dSetDefault_self p "checked" (.bool false)
  have hcode : ∀ (htv : jGetD block "type" .null = .str "code")
      (hpay : blockifyPayload block (.str "code") = .obj p),
      (dLookup p "language" = some (.str "cpp") →
        payloadProp (notion_blockify block) "code" "language" =
          some (.str "c++")) ∧
      (dLookup p "language" ≠ some (.str "cpp") →
        payloadProp (notion_blockify block) "code" "language" =
          some ((dLookup p "language").getD (.str "plain text"))) := by
    intro htv hpay
    have h := notion_blockify_payload block "code" htv (by decide)
    rw [hpay] at h
    have hdef : applyDefaults (.str "code") (.obj p) =
        .obj (if dLookup (dSetDefault p "language" (.str "plain text"))
            "language" == some (.str "cpp")
          then dSet (dSetDefault p "language" (.str "plain text"))
            "language" (.str "c++")
          else dSetDefault p "language" (.str "plain text")) := by
      simp [applyDefaults]
    rw [hdef] at h
    constructor
    · intro hcpp
      have hcont : dContains p "language" = true := by
        simp [dContains, hcpp]
      have hp1 : dSetDefault p "language" (.str "plain text") = p := by
        simp [dSetDefault, hcont]
      rw [hp1] at h
      rw [if_pos (by simp [hcpp])] at h
      unfold payloadProp
      rw [h]
      exact dLookup_dSet_self p "language" (.str "c++")
    · intro hncpp
      have hlook := dLookup_dSetDefault_self p "language" (.str "plain text")
      have hnotcpp : ((dLookup p "language").getD (.str "plain text")) ≠
          .str "cpp" := by
        cases hl : dLookup p "language" with
        | none => simp
        | some w =>
          simp only [Option.getD_some]
          intro he
          exact hncpp (by rw [hl, he])
      rw [if_neg (by simp [hlook]; exact hnotcpp)] at h
      unfold payloadProp
      rw [h]
      exact hlook
  refine ⟨?_, ?_, ?_, ?_, ?_⟩
  · intro htv hpay hnc
    rw [htodo htv hpay]
    unfold dContains at hnc
    cases hl : dLookup p "checked" with
    | none => simp
    | some w => simp [hl] at hnc
  · intro htv hpay v hv
    rw [htodo htv hpay, hv]
    rfl
  · intro htv hpay hnc
    have hne : dLookup p "language" ≠ some (.str "cpp") := by
      unfold dContains at hnc
      cases hl : dLookup p "language" with
      | none => simp
      | some w => simp [hl] at hnc
    rw [(hcode htv hpay).2 hne]
    unfold dContains at hnc
    cases hl : dLookup p "language" with
    | none => simp
    | some w => simp [hl] at hnc
  · intro htv hpay hcpp
    exact (hcode htv hpay).1 hcpp
  · intro htv hpay v hv hvne
    have hne : dLookup p "language" ≠ some (.str "cpp") := by
      rw [hv]
      intro he
      simp at he
      exact hvne he
    rw [(hcode htv hpay).2 hne, hv]
    rfl

/-- Witness for C9: a to-do block without `checked`, a code block with
`language="cpp"`, and a code block with `language="python"`. -/
theorem C9_blockify_defaults_witness :
    payloadProp (notion_blockify (.obj [("type", Json.str "to_do"),
        ("to_do", Json.obj [])])) "to_do" "checked" = some (.bool false) ∧
    payloadProp (notion_blockify (.obj [("type", Json.str "code"),
        ("code", Json.obj [("language", Json.str "cpp")])]))
      "code" "language" = some (.str "c++") ∧
    payloadProp (notion_blockify (.obj [("type", Json.str "code"),
        ("code", Json.obj [("language", Json.str "python")])]))
      "code" "language" = some (.str "python") := by
  refine ⟨?_, ?_, ?_⟩
  · exact (C9_blockify_defaults (.obj [("type", Json.str "to_do"),
      ("to_do", Json.obj [])]) []).1 (by decide) (by decide) (by decide)
  · exact (C9_blockify_defaults (.obj [("type", Json.str "code"),
      ("code", Json.obj [("language", Json.str "cpp")])])
      [("language", Json.str "cpp")]).2.2.2.1 (by decide) (by decide)
      (by decide)
  · exact (C9_blockify_defaults (.obj [("type", Json.str "code"),
      ("code", Json.obj [("language", Json.str "python")])])
      [("language", Json.str "python")]).2.2.2.2 (by decide) (by decide)
      (Json.str "python") (by decide) (by decide)

/-- Claim C10: when a block presents children in both tolerated positions
at once, the uploader does not reject the input: the top-level `children`
key takes precedence outright — its value, even an empty list, is what the
recursion uses, and an empty top-level list means no recursion at all —
while the type-payload children are consulted only when no top-level
`children` key is present. -/
theorem C10_children_precedence (o : Json) :
    (jContains o "children" = true →
      childrenForUpload o = .ok (jGetD o "children" .null)) ∧
    (∀ s p, jContains o "children" = false →
      jGetD o "type" .null = .str s → s ≠ "" → jGet o s = some (.obj p) →
      childrenForUpload o = .ok ((dLookup p "children").getD (.arr []))) ∧
    (∀ resp c, jGet o "children" = some (.arr []) →
      uploadZip resp [o] [c] = ([], .ok ())) := by
  refine ⟨?_, ?_, ?_⟩
  · intro hc
    simp [childrenForUpload, hc]
  · intro s p hc htv hne hpt
    have hcont : jContains o s = true := by
      cases o <;> simp_all [jGet, jContains, dContains]
    simp [childrenForUpload, hc, htv, hne, hcont, hpt]
  · intro resp c hch
    have hobj : jContains o "children" = true := by
      cases o <;> simp_all [jGet, jContains, dContains]
    have hgd : jGetD o "children" .null = .arr [] := by
      cases o <;> simp_all [jGet, jGetD]
    have h1 : childrenForUpload o = .ok (.arr []) := by
      simp [childrenForUpload, hobj, hgd]
    rw [uploadZip]
    simp only [uploadZip]
    split
    next e heq =>
      rw [h1] at heq
      cases heq
    next cv heq =>
      rw [h1] at heq
      cases heq
      simp [truthy]

/-- Witness for C10: one block with payload children and an empty
top-level `children` list (no recursion), one block with payload children
only (they are used). -/
theorem C10_children_precedence_witness :
    childrenForUpload (.obj [("type", Json.str "toggle"),
      ("toggle", Json.obj [("children", Json.arr [Json.null])]),
      ("children", Json.arr [])]) = .ok (.arr []) ∧
    uploadZip (fun _ _ => none)
      [(.obj [("type", Json.str "toggle"),
        ("toggle", Json.obj [("children", Json.arr [Json.null])]),
        ("children", Json.arr [])])] [.null] = ([], .ok ()) ∧
    childrenForUpload (.obj [("type", Json.str "toggle"),
      ("toggle", Json.obj [("children", Json.arr [Json.null])])]) =
      .ok (.arr [Json.null]) := by
  refine ⟨?_, ?_, ?_⟩
  · have h := (C10_children_precedence (.obj [("type", Json.str "toggle"),
      ("toggle", Json.obj [("children", Json.arr [Json.null])]),
      ("children", Json.arr [])])).1 (by decide)
    simpa [jGetD, dLookup] using h
  · exact (C10_children_precedence (.obj [("type", Json.str "toggle"),
      ("toggle", Json.obj [("children", Json.arr [Json.null])]),
      ("children", Json.arr [])])).2.2 (fun _ _ => none) .null (by decide)
  · have h := (C10_children_precedence (.obj [("type", Json.str "toggle"),
      ("toggle", Json.obj [("children", Json.arr [Json.null])])])).2.1
      "toggle" [("children", Json.arr [Json.null])] (by decide) (by decide)
      (by decide) (by decide)
    simpa [dLookup] using h

/-- Claim C3: when the created-block descriptors returned for a level
differ in number from the blocks submitted, the call prints a diagnostic
and returns normally: no recursion into any block's children, no index
error, and no request beyond the appends already issued for that level
(already-uploaded blocks are left in place — the trace is exactly the
level's appends followed by the warning). -/
theorem C3_mismatch_abort (resp : Json → List Json → Option (List Json))
    (parentId : Json) (xs payloads : List Json) (tr : List Event)
    (created : List Json)
    (hstrip : stripAll xs = .ok payloads)
    (happend : append_block_children resp parentId payloads =
      (tr, .ok created))
    (hmis : created.length ≠ xs.length) :
    uploadLevel resp parentId xs =
      (tr ++ [.warn ("Warning: Mismatch in uploaded blocks count. Sent " ++
        toString xs.length ++ ", got " ++ toString created.length)],
       .ok ()) ∧
    upload_blocks_recursively resp parentId (.arr xs) =
      (tr ++ [.warn ("Warning: Mismatch in uploaded blocks count. Sent " ++
        toString xs.length ++ ", got " ++ toString created.length)],
       .ok ()) := by
  have hlevel : uploadLevel resp parentId xs =
      (tr ++ [.warn ("Warning: Mismatch in uploaded blocks count. Sent " ++
        toString xs.length ++ ", got " ++ toString created.length)],
       .ok ()) := by
    rw [uploadLevel]
    simp only [hstrip, happend]
    rw [if_pos hmis]
  have hxs : xs ≠ [] := by
    rintro rfl
    simp [stripAll] at hstrip
    subst hstrip
    rw [append_block_children, chunkList] at happend
    simp [appendLoop] at happend
    obtain ⟨-, rfl⟩ := happend
    exact hmis rfl
  refine ⟨hlevel, ?_⟩
  have hco : coerceBlocks (.arr xs) = .arr xs := by
    cases xs with
    | nil => exact absurd rfl hxs
    | cons a as => rfl
  rw [upload_blocks_recursively]
  rw [if_neg (by simp [truthy, hxs])]
  split
  · rename_i xs' hb
    rw [hco] at hb
    cases hb
    exact hlevel
  · exfalso
    simp_all

/-- Witness for C3: a one-block level against a service that returns an
empty results array. -/
theorem C3_mismatch_abort_witness :
    uploadLevel (fun _ _ => some []) (.str "P") [.obj []] =
      ([.appendChildren (.str "P") [.obj []],
        .warn "Warning: Mismatch in uploaded blocks count. Sent 1, got 0"],
       .ok ()) := by
  have h := C3_mismatch_abort (fun _ _ => some []) (.str "P") [.obj []]
    [.obj []] [.appendChildren (.str "P") [.obj []]] []
    (by simp [stripAll, stripBlock, stripObj, stripCore, dErase, dLookup])
    (by rw [append_block_children, chunkList]
        simp [appendLoop, chunkList])
    (by decide)
  simpa using h.1

/-! ### Page creation sequencing (claim C5) -/

/-- Whether an event is the page-creation POST. -/
def isCreatePage : Event → Bool
  | .createPage _ => true
  | _ => false

theorem appendLoop_no_createPage
    (resp : Json → List Json → Option (List Json)) (blockId : Json) :
    ∀ batches, ∀ e ∈ (appendLoop resp blockId batches).1,
      isCreatePage e = false := by
  intro batches
  induction batches with
  | nil => simp [appendLoop]
  | cons b rest ih =>
    intro e he
    rw [appendLoop] at he
    cases hr : resp blockId b with
    | none =>
      rw [hr] at he
      simp at he
      subst he
      rfl
    | some results =>
      rw [hr] at he
      simp at he
      rcases he with rfl | he
      · rfl
      · exact ih e he

theorem append_no_createPage
    (resp : Json → List Json → Option (List Json)) (blockId : Json)
    (children : List Json) :
    ∀ e ∈ (append_block_children resp blockId children).1,
      isCreatePage e = false :=
  appendLoop_no_createPage resp blockId (chunkList children)

/-- The recursive uploader only emits append requests and diagnostics:
no page-level write ever appears in its trace. -/
theorem upload_no_createPage
    (resp : Json → List Json → Option (List Json)) :
    ∀ (parentId blocks : Json),
      ∀ e ∈ (upload_blocks_recursively resp parentId blocks).1,
        isCreatePage e = false := by
  refine upload_blocks_recursively.induct resp
    (fun parentId blocks => ∀ e ∈ (upload_blocks_recursively resp parentId blocks).1,
      isCreatePage e = false)
    (fun parentId xs => ∀ e ∈ (uploadLevel resp parentId xs).1,
      isCreatePage e = false)
    (fun xs created => ∀ e ∈ (uploadZip resp xs created).1,
      isCreatePage e = false)
    ?_ ?_ ?_ ?_ ?_ ?_ ?_ ?_ ?_ ?_ ?_ ?_ ?_ ?_
  · intro parentId blocks hfalsy
    rw [upload_blocks_recursively.eq_def, if_pos hfalsy]
    simp
  · intro parentId blocks hnf xs hb ih
    rw [upload_blocks_recursively.eq_def, if_neg hnf]
    split
    · rename_i xs' hb'
      rw [hb] at hb'
      cases hb'
      exact ih
    · simp
  · intro parentId blocks hnf hnarr
    intro ev hev
    rw [upload_blocks_recursively.eq_def, if_neg hnf] at hev
    split at hev
    · rename_i xs' hb'
      exact absurd hb' (by simpa using hnarr xs')
    · simp at hev
  · intro parentId xs e hstrip
    rw [uploadLevel]
    simp only [hstrip]
    simp
  · intro parentId xs ws hstrip tr e happend
    rw [uploadLevel]
    simp only [hstrip, happend]
    intro ev hev
    have := append_no_createPage resp parentId ws ev
    rw [happend] at this
    exact this hev
  · intro parentId xs ws hstrip tr created happend hmis
    rw [uploadLevel]
    simp only [hstrip, happend]
    rw [if_pos hmis]
    intro ev hev
    simp at hev
    rcases hev with hev | rfl
    · have := append_no_createPage resp parentId ws ev
      rw [happend] at this
      exact this hev
    · rfl
  · intro parentId xs ws hstrip tr created happend hmis ih
    rw [uploadLevel]
    simp only [hstrip, happend]
    rw [if_neg hmis]
    intro ev hev
    simp at hev
    rcases hev with hev | hev
    · have := append_no_createPage resp parentId ws ev
      rw [happend] at this
      exact this hev
    · exact ih ev hev
  · intro created
    rw [uploadZip]
    simp
  · intro o os
    rw [uploadZip]
    simp
  · intro o os c cs e hcfu
    rw [uploadZip]
    split
    · simp
    · rename_i cv hcv
      rw [hcfu] at hcv
      cases hcv
  · intro o os c cs cv hcfu htr cid hid t1 e hup ih
    rw [uploadZip]
    split
    · rename_i e' hcv
      rw [hcfu] at hcv
      cases hcv
    · rename_i cv' hcv
      rw [hcfu] at hcv
      cases hcv
      rw [if_pos htr, hid]
      intro ev hev
      simp only [hup] at hev
      exact ih ev (by rw [hup]; exact hev)
  · intro o os c cs cv hcfu htr cid hid t1 a hup ih1 ih2
    rw [uploadZip]
    split
    · rename_i e' hcv
      rw [hcfu] at hcv
      cases hcv
    · rename_i cv' hcv
      rw [hcfu] at hcv
      cases hcv
      rw [if_pos htr, hid]
      intro ev hev
      simp only [hup] at hev
      simp at hev
      rcases hev with hev | hev
      · exact ih1 ev (by rw [hup]; exact hev)
      · exact ih2 ev hev
  · intro o os c cs cv hcfu htr hid
    rw [uploadZip]
    split
    · rename_i e' hcv
      rw [hcfu] at hcv
      cases hcv
    · rename_i cv' hcv
      rw [hcfu] at hcv
      cases hcv
      rw [if_pos htr, hid]
      simp
  · intro o os c cs cv hcfu hntr ih
    rw [uploadZip]
    split
    · rename_i e' hcv
      rw [hcfu] at hcv
      cases hcv
    · rename_i cv' hcv
      rw [hcfu] at hcv
      cases hcv
      rw [if_neg hntr]
      exact ih

/-- Claim C5: `create_page_from_raw_blocks` issues exactly one
page-creation write, first, and its payload carries no content children;
content appends can only follow a successful creation (a failed creation
ends the trace at that single write); if creation succeeds but the
content upload fails, the failure propagates to the caller while the
trace contains no page-level write beyond the single leading creation —
the created page and the blocks already appended are never deleted or
rolled back; and on success the caller receives exactly the creation
response, whose id/url (non-empty by hypothesis on the service) are the
page's identifiers. -/
theorem C5_page_creation_contract (pageResp : Option Json)
    (resp : Json → List Json → Option (List Json))
    (parentPageId title : String) (blocksJson : Json) :
    jContains (pagePayload parentPageId title) "children" = false ∧
    (create_page_from_raw_blocks pageResp resp parentPageId title
        blocksJson).1.head? =
      some (.createPage (pagePayload parentPageId title)) ∧
    (pageResp = none →
      create_page_from_raw_blocks pageResp resp parentPageId title
          blocksJson =
        ([.createPage (pagePayload parentPageId title)],
         .error "Failed to create page")) ∧
    (∀ e ∈ (create_page_from_raw_blocks pageResp resp parentPageId title
        blocksJson).1.tail, isCreatePage e = false) ∧
    (∀ pd pid tr err, pageResp = some pd → jGet pd "id" = some pid →
      upload_blocks_recursively resp pid blocksJson = (tr, .error err) →
      create_page_from_raw_blocks pageResp resp parentPageId title
          blocksJson =
        (.createPage (pagePayload parentPageId title) ::
          (tr ++ [.warn ("Error uploading blocks recursively: " ++ err)]),
         .error err)) ∧
    (∀ pd ids urls, pageResp = some pd →
      jGet pd "id" = some (.str ids) → ids ≠ "" →
      jGet pd "url" = some (.str urls) → urls ≠ "" →
      ∀ res, (create_page_from_raw_blocks pageResp resp parentPageId title
        blocksJson).2 = .ok res →
        res = pd ∧ jGet res "url" = some (.str urls) ∧ urls ≠ "") := by
  have hnoch : jContains (pagePayload parentPageId title) "children" =
      false := by
    simp [pagePayload, jContains, dContains, dLookup]
  rcases pageResp with _ | pd
  · refine ⟨hnoch, by simp [create_page_from_raw_blocks], fun _ => rfl,
      ?_, ?_, ?_⟩
    · simp [create_page_from_raw_blocks]
    · intro pd pid tr err hpr
      cases hpr
    · intro pd ids urls hpr
      cases hpr
  · unfold create_page_from_raw_blocks
    cases hid : jGet pd "id" with
    | none =>
      refine ⟨hnoch, by simp [hid], (by intro h; cases h), ?_, ?_, ?_⟩
      · simp [hid]
      · intro pd' pid tr err hpr hid'
        cases hpr
        rw [hid] at hid'
        cases hid'
      · intro pd' ids urls hpr hid'
        cases hpr
        rw [hid] at hid'
        cases hid'
    | some pid =>
      cases hup : upload_blocks_recursively resp pid blocksJson with
      | mk tr r =>
        cases r with
        | error e =>
          refine ⟨hnoch, by simp [hid, hup], (by intro h; cases h), ?_, ?_, ?_⟩
          · intro ev hev
            simp only [hid, hup] at hev
            simp at hev
            rcases hev with hev | rfl
            · have := upload_no_createPage resp pid blocksJson ev
              rw [hup] at this
              exact this hev
            · rfl
          · intro pd' pid' tr' err hpr hid' hup'
            cases hpr
            rw [hid] at hid'
            cases hid'
            rw [hup] at hup'
            cases hup'
            simp [hid, hup]
          · intro pd' ids urls hpr hid' hne hurl hune res hres
            simp only [hid, hup] at hres
            simp at hres
        | ok u =>
          refine ⟨hnoch, by simp [hid, hup], (by intro h; cases h), ?_, ?_, ?_⟩
          · intro ev hev
            simp only [hid, hup] at hev
            simp at hev
            have := upload_no_createPage resp pid blocksJson ev
            rw [hup] at this
            exact this hev
          · intro pd' pid' tr' err hpr hid' hup'
            cases hpr
            rw [hid] at hid'
            cases hid'
            rw [hup] at hup'
            cases hup'
          · intro pd' ids urls hpr hid' hne hurl hune res hres
            cases hpr
            simp only [hid, hup] at hres
            simp at hres
            subst hres
            exact ⟨rfl, hurl, hune⟩

/-- A non-empty literal list argument reaches the level upload directly. -/
theorem upload_arr (resp : Json → List Json → Option (List Json))
    (parentId : Json) (xs : List Json) (hxs : xs ≠ []) :
    upload_blocks_recursively resp parentId (.arr xs) =
      uploadLevel resp parentId xs := by
  rw [upload_blocks_recursively.eq_def]
  rw [if_neg (by simp [truthy, hxs])]
  have hco : coerceBlocks (.arr xs) = .arr xs := by
    cases xs with
    | nil => exact absurd rfl hxs
    | cons a as => rfl
  split
  · rename_i xs' hb
    rw [hco] at hb
    cases hb
    rfl
  · exfalso
    simp_all

/-- Witness for C5: page creation succeeds, the first content append
fails. -/
theorem C5_page_creation_contract_witness :
    jContains (pagePayload "PARENT" "T") "children" = false ∧
    create_page_from_raw_blocks
        (some (.obj [("id", Json.str "PAGE"), ("url", Json.str "U")]))
        (fun _ _ => none) "PARENT" "T" (.arr [.obj []]) =
      (.createPage (pagePayload "PARENT" "T") ::
        ([.appendChildren (.str "PAGE") [.obj []]] ++
          [.warn ("Error uploading blocks recursively: " ++
            "Failed to append children")]),
       .error "Failed to append children") := by
  have hupl : upload_blocks_recursively (fun _ _ => none) (.str "PAGE")
      (.arr [.obj []]) =
      ([.appendChildren (.str "PAGE") [.obj []]],
       .error "Failed to append children") := by
    rw [upload_arr _ _ _ (by simp)]
    rw [uploadLevel]
    have hstrip : stripAll [Json.obj []] = .ok [.obj []] := rfl
    have happ : append_block_children (fun _ _ => none) (.str "PAGE")
        [.obj []] =
        ([.appendChildren (.str "PAGE") [.obj []]],
         .error "Failed to append children") := by
      rw [append_block_children, chunkList]
      simp [appendLoop]
    simp only [hstrip, happ]
  have h := C5_page_creation_contract
    (some (.obj [("id", Json.str "PAGE"), ("url", Json.str "U")]))
    (fun _ _ => none) "PARENT" "T" (.arr [.obj []])
  refine ⟨h.1, ?_⟩
  exact h.2.2.2.2.1 (.obj [("id", Json.str "PAGE"), ("url", Json.str "U")])
    (.str "PAGE") [.appendChildren (.str "PAGE") [.obj []]]
    "Failed to append children" rfl (by decide) hupl

/-! ### Positional pairing (claim C1) -/

theorem jGetD_of_jGet {j : Json} {k : String} {v : Json} (d : Json)
    (h : jGet j k = some v) : jGetD j k d = v := by
  cases j <;> simp [jGet] at h
  case obj kvs => simp [jGetD, h]

/-- Modelled from the spec sentence: "For each index `i`, pair `blocks[i]`
with `createdBlocks[i]`; if `blocks[i]` carries children, recursively
invoke `uploadTree(createdBlocks[i].id, those children)`" — the list of
(parent id, children) recursion arguments, in index order. -/
def childPairsSpec (xs created : List Json) : List (Json × Json) :=
  (xs.zip created).filterMap fun oc =>
    match childrenForUpload oc.1 with
    | .ok cv => if truthy cv then some (jGetD oc.2 "id" .null, cv) else none
    | .error _ => none

/-- Sequential recursive upload of a list of (parent id, children)
arguments, in order, stopping at the first failure. -/
def runPairs (resp : Json → List Json → Option (List Json)) :
    List (Json × Json) → List Event × Except String Unit
  | [] => ([], .ok ())
  | (pid, cv) :: rest =>
    match upload_blocks_recursively resp pid cv with
    | (t1, .error e) => (t1, .error e)
    | (t1, .ok _) =>
      let z := runPairs resp rest
      (t1 ++ z.1, z.2)

/-- Claim C1: the recursion step of `upload_blocks_recursively` pairs
submitted blocks with created-block descriptors positionally: it behaves
exactly as uploading, in index order, the children of each block that
carries any under the id of the created descriptor at the same index;
and a full level call (strip, append with matching count, recurse) is
the level's appends followed by those positional child uploads. -/
theorem C1_positional_pairing (resp : Json → List Json → Option (List Json))
    (xs created : List Json)
    (hok : ∀ oc ∈ xs.zip created, ∃ cv, childrenForUpload oc.1 = .ok cv ∧
      (truthy cv = true → ∃ cid, jGet oc.2 "id" = some cid)) :
    uploadZip resp xs created = runPairs resp (childPairsSpec xs created) ∧
    (∀ parentId payloads tr, xs ≠ [] →
      created.length = xs.length →
      stripAll xs = .ok payloads →
      append_block_children resp parentId payloads = (tr, .ok created) →
      upload_blocks_recursively resp parentId (.arr xs) =
        (tr ++ (runPairs resp (childPairsSpec xs created)).1,
         (runPairs resp (childPairsSpec xs created)).2)) := by
  have main : ∀ (xs created : List Json),
      (∀ oc ∈ xs.zip created, ∃ cv, childrenForUpload oc.1 = .ok cv ∧
        (truthy cv = true → ∃ cid, jGet oc.2 "id" = some cid)) →
      uploadZip resp xs created = runPairs resp (childPairsSpec xs created) := by
    intro xs
    induction xs with
    | nil =>
      intro created hok
      rw [uploadZip]
      simp [childPairsSpec, runPairs]
    | cons o os ih =>
      intro created hok
      cases created with
      | nil =>
        rw [uploadZip]
        simp [childPairsSpec, runPairs]
      | cons c cs =>
        obtain ⟨cv, hcv, hcid⟩ := hok (o, c) (by simp)
        have hok' : ∀ oc ∈ os.zip cs, ∃ cv, childrenForUpload oc.1 = .ok cv ∧
            (truthy cv = true → ∃ cid, jGet oc.2 "id" = some cid) :=
          fun oc hoc => hok oc (by simp [hoc])
        have hspec : childPairsSpec (o :: os) (c :: cs) =
            (if truthy cv = true then [(jGetD c "id" .null, cv)] else []) ++
              childPairsSpec os cs := by
          simp only [childPairsSpec, List.zip_cons_cons, List.filterMap_cons,
            hcv]
          split_ifs <;> simp [childPairsSpec]
        rw [uploadZip]
        split
        · rename_i e hcv'
          rw [hcv] at hcv'
          cases hcv'
        · rename_i cv' hcv'
          rw [hcv] at hcv'
          cases hcv'
          by_cases htr : truthy cv = true
          · obtain ⟨cid, hjid⟩ := hcid htr
            have hjid2 : jGet c "id" = some cid := hjid
            have hgd : jGetD c "id" .null = cid := jGetD_of_jGet .null hjid2
            rw [if_pos htr, hspec, if_pos htr, List.singleton_append,
              runPairs, hgd]
            split
            · rename_i cid' hjid'
              rw [hjid2] at hjid'
              cases hjid'
              cases hup : upload_blocks_recursively resp cid cv with
              | mk t1 r =>
                cases r with
                | error e => rfl
                | ok u => rw [ih cs hok']
            · rename_i hjid'
              rw [hjid2] at hjid'
              simp at hjid'
          · rw [if_neg htr, hspec, if_neg htr, List.nil_append]
            exact ih cs hok'
  refine ⟨main xs created hok, ?_⟩
  intro parentId payloads tr hxs hlen hstrip happend
  rw [upload_arr resp parentId xs hxs]
  rw [uploadLevel]
  simp only [hstrip, happend]
  rw [if_neg (by omega)]
  rw [main xs created hok]

/-- Witness for C1: a two-block level whose first block has children,
with distinct created ids. -/
theorem C1_positional_pairing_witness :
    uploadZip (fun _ _ => some [])
      [.obj [("type", Json.str "toggle"), ("children", Json.arr [.obj []])],
       .obj []]
      [.obj [("id", Json.str "A")], .obj [("id", Json.str "B")]] =
    runPairs (fun _ _ => some [])
      (childPairsSpec
        [.obj [("type", Json.str "toggle"), ("children", Json.arr [.obj []])],
         .obj []]
        [.obj [("id", Json.str "A")], .obj [("id", Json.str "B")]]) := by
  refine (C1_positional_pairing (fun _ _ => some [])
    [.obj [("type", Json.str "toggle"), ("children", Json.arr [.obj []])],
     .obj []]
    [.obj [("id", Json.str "A")], .obj [("id", Json.str "B")]] ?_).1
  intro oc hoc
  simp [List.zip] at hoc
  rcases hoc with rfl | rfl
  · exact ⟨.arr [.obj []], rfl, fun _ => ⟨.str "A", rfl⟩⟩
  · exact ⟨.arr [], rfl, fun h => absurd h (by decide)⟩

/-! ### Keep-predicate characterization of pruning (claim C6) -/

theorem any_attach_eq (l : List Json) (p : Json → Bool) :
    (l.attach.any fun c => p c.1) = l.any p := by
  rw [Bool.eq_iff_iff]
  simp [List.any_eq_true, List.mem_attach, Subtype.exists]

theorem filter_isEmpty_eq (p : Json → Bool) (l : List Json) :
    (l.filter p).isEmpty = !l.any p := by
  induction l with
  | nil => rfl
  | cons a as ih =>
    by_cases h : p a <;> simp [List.filter_cons, h, ih]

theorem map_isEmpty (f : Json → Json) (l : List Json) :
    (l.map f).isEmpty = l.isEmpty := by
  cases l <;> rfl

/-- `prune_empty_blocks` is exactly: mutate every block in place, keep
those satisfying the specification's keep-predicate. -/
theorem prune_filter_map : ∀ bs : List Json,
    prune_empty_blocks bs = (bs.filter keepSpec).map pruneTransform := by
  intro bs
  induction bs using prune_empty_blocks.induct with
  | case1 => simp [prune_empty_blocks]
  | case2 blk rest ih1 ih2 =>
    rw [prune_empty_blocks]
    have hkeep : pruneKeepRaw blk (prune_empty_blocks (childList blk)) =
        keepSpec blk := by
      rw [keepSpec]
      unfold pruneKeepRaw
      rw [ih1, any_attach_eq, map_isEmpty, filter_isEmpty_eq]
      simp
    rw [hkeep, ih2]
    by_cases hk : keepSpec blk = true
    · rw [if_pos hk, List.filter_cons_of_pos hk, List.map_cons]
      rw [List.singleton_append]
      congr 1
    · rw [if_neg (by simp [hk]), List.filter_cons_of_neg (by simp [hk]),
        List.nil_append]

/-- Claim C6: a node survives `prune_empty_blocks` iff it is a divider,
or has at least one rich-text span with non-blank trimmed text, or has
at least one surviving (recursively pruned) child — the output is the
in-place-mutated survivors, and a dropped node takes its subtree with
it.  In particular an empty divider is always kept and an empty
paragraph is always dropped. -/
theorem C6_keep_predicate :
    (∀ bs : List Json,
      prune_empty_blocks bs = (bs.filter keepSpec).map pruneTransform) ∧
    prune_empty_blocks [.obj [("type", Json.str "divider"),
        ("divider", Json.obj [])]] =
      [.obj [("type", Json.str "divider"), ("divider", Json.obj [])]] ∧
    prune_empty_blocks [.obj [("type", Json.str "paragraph"),
        ("paragraph", Json.obj [("rich_text", Json.arr [])])]] = [] := by
  refine ⟨prune_filter_map, ?_, ?_⟩
  · rw [prune_filter_map]
    have hks : keepSpec (.obj [("type", Json.str "divider"),
        ("divider", Json.obj [])]) = true := by
      rw [keepSpec]
      simp [jGetD, dLookup]
    rw [List.filter_cons_of_pos hks]
    have ht : pruneTransform (.obj [("type", Json.str "divider"),
        ("divider", Json.obj [])]) =
        .obj [("type", Json.str "divider"), ("divider", Json.obj [])] := by
      unfold pruneTransform
      rw [show childList (.obj [("type", Json.str "divider"),
        ("divider", Json.obj [])]) = [] from rfl]
      rw [prune_empty_blocks]
      rfl
    rw [List.map_cons, ht]
    rfl
  · rw [prune_filter_map]
    have hks : keepSpec (.obj [("type", Json.str "paragraph"),
        ("paragraph", Json.obj [("rich_text", Json.arr [])])]) = false := by
      rw [keepSpec]
      decide
    rw [List.filter_cons_of_neg (by simp [hks])]
    rfl

/-! ### Mutation of the input by normalization (claim C8) -/

theorem jGet_jSet_ne (b : Json) (key k : String) (v : Json) (h : key ≠ k) :
    jGet (jSet b key v) k = jGet b k := by
  cases b <;> simp [jSet, jGet]
  case obj kvs => exact dLookup_dSet_ne kvs v h

theorem jGet_jErase_ne (b : Json) (key k : String) (h : key ≠ k) :
    jGet (jErase b key) k = jGet b k := by
  cases b <;> simp [jErase, jGet]
  case obj kvs => exact dLookup_dErase_ne kvs h

/-- The in-place mutation `prune_empty_blocks` performs on a block
touches only the top-level `children` key and the `children` key of its
type payload: every other top-level key keeps its value. -/
theorem pruneTransform_frame (blk : Json) (k : String)
    (hk : k ≠ "children")
    (hks : ∀ s, jGetD blk "type" .null = .str s → k ≠ s) :
    jGet (pruneTransform blk) k = jGet blk k := by
  unfold pruneTransform pruneAttach
  have hblk1 : ∀ (cl : List Json),
      jGet (pruneAttachChildren blk cl) k = jGet blk k := by
    intro cl
    unfold pruneAttachChildren
    split
    · exact jGet_jSet_ne blk "children" k (.arr cl) (fun h => hk h.symm)
    · split
      · exact jGet_jErase_ne blk "children" k (fun h => hk h.symm)
      · rfl
  unfold prunePopPayload
  split
  case h_1 s hs =>
    have hk2 : k ≠ s := hks s hs
    split
    · split
      · split
        · rw [jGet_jSet_ne _ s k _ (fun h => hk2 h.symm)]
          exact hblk1 _
        · exact hblk1 _
      · exact hblk1 _
    · exact hblk1 _
  case h_2 => exact hblk1 _

/-- Counterexample for claim C8: `prune_empty_blocks` does not leave its
input unchanged — a paragraph whose payload carries an (empty) nested
`children` list comes back without that key. -/
theorem C8_normalization_counterexample :
    pruneEffect [.obj [("type", Json.str "paragraph"),
      ("paragraph", Json.obj [("rich_text",
        Json.arr [.obj [("plain_text", Json.str "hi")]]),
        ("children", Json.arr [])])]] ≠
    [.obj [("type", Json.str "paragraph"),
      ("paragraph", Json.obj [("rich_text",
        Json.arr [.obj [("plain_text", Json.str "hi")]]),
        ("children", Json.arr [])])]] := by
  have ht : pruneTransform (.obj [("type", Json.str "paragraph"),
      ("paragraph", Json.obj [("rich_text",
        Json.arr [.obj [("plain_text", Json.str "hi")]]),
        ("children", Json.arr [])])]) =
      .obj [("type", Json.str "paragraph"),
        ("paragraph", Json.obj [("rich_text",
          Json.arr [.obj [("plain_text", Json.str "hi")]])])] := by
    unfold pruneTransform
    rw [show childList (.obj [("type", Json.str "paragraph"),
      ("paragraph", Json.obj [("rich_text",
        Json.arr [.obj [("plain_text", Json.str "hi")]]),
        ("children", Json.arr [])])]) = [] from rfl]
    rw [prune_empty_blocks]
    rfl
  simp only [pruneEffect, List.map_cons, List.map_nil, ht]
  decide

/-- Claim C8, amended: `prune_empty_blocks` and `notion_blockify`
perform no network I/O and return the same output for the same input,
but pruning rewrites each visited block of the caller's tree in place:
the post-state of the input list is exactly the blocks with cleaned
children reattached (or stale `children` keys removed) and payload
`children` keys dropped — every other top-level key untouched — and the
returned list is the keep-satisfying subsequence of that post-state. -/
theorem C8_normalization_effects :
    (∀ bs : List Json, pruneEffect bs = bs.map pruneTransform ∧
      prune_empty_blocks bs = (bs.filter keepSpec).map pruneTransform ∧
      (prune_empty_blocks bs).Sublist (pruneEffect bs)) ∧
    (∀ blk k, k ≠ "children" →
      (∀ s, jGetD blk "type" .null = .str s → k ≠ s) →
      jGet (pruneTransform blk) k = jGet blk k) := by
  refine ⟨fun bs => ⟨rfl, prune_filter_map bs, ?_⟩, pruneTransform_frame⟩
  rw [prune_filter_map bs]
  unfold pruneEffect
  exact (List.filter_sublist bs).map pruneTransform

/-- Witness for the amended C8 theorem at a concrete block: the `type`
key of a pruned paragraph block keeps its value. -/
theorem C8_normalization_effects_witness :
    jGet (pruneTransform (.obj [("type", Json.str "paragraph"),
      ("paragraph", Json.obj [("rich_text",
        Json.arr [.obj [("plain_text", Json.str "x")]])])])) "type" =
      some (Json.str "paragraph") := by
  have h := C8_normalization_effects.2
    (.obj [("type", Json.str "paragraph"),
      ("paragraph", Json.obj [("rich_text",
        Json.arr [.obj [("plain_text", Json.str "x")]])])]) "type"
    (by decide)
    (fun s hs => by
      have h2 : Json.str "paragraph" = Json.str s := hs
      cases h2
      decide)
  exact h.trans rfl

/-! ### Idempotence of normalization (claim C7)

The proof shows that every block produced by `normalizeBlocks` is a
fixpoint of both pruning and wire-shaping, by induction on the tree.  The
only facts about the input it needs are the erase/set/lookup laws below
and that every `children` value the pruning recursion visits is a list or
falsy (`wfChildren`) — on any other input the Python normalizer raises
while iterating and never returns. -/

theorem dErase_eq_self_of_none {kvs : List (String × Json)} {k : String}
    (h : dLookup kvs k = none) : dErase kvs k = kvs := by
  induction kvs with
  | nil => rfl
  | cons kv rest ih =>
    obtain ⟨k', w⟩ := kv
    rw [dLookup] at h
    rw [dErase]
    split
    · rename_i he
      rw [if_pos he] at h
      simp at h
    · rename_i he
      rw [if_neg he] at h
      rw [ih h]

theorem dSet_eq_self_of_lookup {kvs : List (String × Json)} {k : String}
    {v : Json} (h : dLookup kvs k = some v) : dSet kvs k v = kvs := by
  induction kvs with
  | nil => simp [dLookup] at h
  | cons kv rest ih =>
    obtain ⟨k', w⟩ := kv
    rw [dLookup] at h
    rw [dSet]
    split
    · rename_i he
      rw [if_pos he] at h
      simp at h
      rw [h]
    · rename_i he
      rw [if_neg he] at h
      rw [ih h]

theorem jSet_eq_self_of_get {j : Json} {k : String} {v : Json}
    (h : jGet j k = some v) : jSet j k v = j := by
  cases j <;> simp [jGet] at h
  case obj kvs => simp [jSet, dSet_eq_self_of_lookup h]

theorem jGet_of_jGetD {j : Json} {k : String} {d v : Json}
    (h : jGetD j k d = v) (hne : v ≠ d) : jGet j k = some v := by
  rcases jGetD_eq_or j k d with h' | h'
  · rw [h] at h'
    exact absurd h' hne
  · rw [h] at h'
    exact h'

theorem jGetD_eq_getD (j : Json) (k : String) (d : Json) :
    jGetD j k d = (jGet j k).getD d := by
  cases j <;> rfl

theorem jGetD_congr {x y : Json} {k : String} (d : Json)
    (h : jGet x k = jGet y k) : jGetD x k d = jGetD y k d := by
  rw [jGetD_eq_getD, jGetD_eq_getD, h]

theorem jGetD_obj (N : List (String × Json)) (k : String) (d : Json) :
    jGetD (.obj N) k d = (dLookup N k).getD d := rfl

theorem jGet_obj (N : List (String × Json)) (k : String) :
    jGet (.obj N) k = dLookup N k := rfl

theorem blockifyPayload_str (block : Json) (s : String) :
    blockifyPayload block (.str s) = jGetD block s (.obj []) := rfl

theorem jContains_of_get {b : Json} {k : String} {v : Json}
    (h : jGet b k = some v) : jContains b k = true := by
  cases b <;> simp [jGet] at h
  case obj kvs => simp [jContains, dContains, h]

theorem jGet_jSet_self {j : Json} {k : String} {w v : Json}
    (h : jGet j k = some w) : jGet (jSet j k v) k = some v := by
  cases j <;> simp [jGet] at h
  case obj q => simp [jSet, jGet, dLookup_dSet_self]

theorem dSetDefault_of_contains {p : List (String × Json)} {k : String}
    (v : Json) (h : dContains p k = true) : dSetDefault p k v = p := by
  unfold dSetDefault
  rw [if_pos h]

theorem dContains_dSetDefault_self (p : List (String × Json)) (k : String)
    (v : Json) : dContains (dSetDefault p k v) k = true := by
  simp [dContains, dLookup_dSetDefault_self]

theorem dSetDefault_idem (p : List (String × Json)) (k : String)
    (v v' : Json) : dSetDefault (dSetDefault p k v) k v' = dSetDefault p k v :=
  dSetDefault_of_contains v' (dContains_dSetDefault_self p k v)

theorem applyDefaults_get_ne (tv payload : Json) (k : String)
    (h1 : k ≠ "checked") (h2 : k ≠ "language") :
    jGet (applyDefaults tv payload) k = jGet payload k := by
  unfold applyDefaults
  split
  · cases payload <;> simp [jGet]
    case obj p => exact dLookup_dSetDefault_ne p _ (fun he => h1 he.symm)
  · split
    · cases payload <;> simp [jGet]
      case obj p =>
        split
        · rw [dLookup_dSet_ne _ _ (fun he => h2 he.symm),
            dLookup_dSetDefault_ne _ _ (fun he => h2 he.symm)]
        · rw [dLookup_dSetDefault_ne _ _ (fun he => h2 he.symm)]
    · rfl

theorem applyDefaults_of_not_obj {tv payload : Json}
    (h : ∀ q, payload ≠ Json.obj q) : applyDefaults tv payload = payload := by
  unfold applyDefaults
  split
  · cases payload <;> try rfl
    case obj p => exact absurd rfl (h p)
  · split
    · cases payload <;> try rfl
      case obj p => exact absurd rfl (h p)
    · rfl

theorem applyDefaults_of_ne {tv : Json} (p : Json)
    (h1 : tv ≠ Json.str "to_do") (h2 : tv ≠ Json.str "code") :
    applyDefaults tv p = p := by
  unfold applyDefaults
  rw [if_neg (by simpa using h1), if_neg (by simpa using h2)]

theorem applyDefaults_idem (tv payload : Json) :
    applyDefaults tv (applyDefaults tv payload) = applyDefaults tv payload := by
  by_cases h1 : tv = Json.str "to_do"
  · subst h1
    cases payload <;> try rfl
    rename_i p
    have e1 : applyDefaults (Json.str "to_do") (Json.obj p) =
        .obj (dSetDefault p "checked" (.bool false)) := by
      simp [applyDefaults]
    rw [e1]
    have e2 : applyDefaults (Json.str "to_do")
        (Json.obj (dSetDefault p "checked" (.bool false))) =
        .obj (dSetDefault (dSetDefault p "checked" (.bool false))
          "checked" (.bool false)) := by
      simp [applyDefaults]
    rw [e2, dSetDefault_idem]
  · by_cases h2 : tv = Json.str "code"
    · subst h2
      cases payload <;> try rfl
      rename_i p
      have hne : (Json.str "code" == Json.str "to_do") = false := by decide
      have e1 : applyDefaults (Json.str "code") (Json.obj p) =
          .obj (if dLookup (dSetDefault p "language" (.str "plain text"))
                "language" == some (Json.str "cpp")
              then dSet (dSetDefault p "language" (.str "plain text"))
                "language" (.str "c++")
              else dSetDefault p "language" (.str "plain text")) := by
        simp [applyDefaults, hne]
      rw [e1]
      by_cases hc : dLookup (dSetDefault p "language" (.str "plain text"))
          "language" == some (Json.str "cpp")
      · rw [if_pos hc]
        have hcont : dContains (dSet (dSetDefault p "language"
            (.str "plain text")) "language" (.str "c++")) "language" = true := by
          simp [dContains, dLookup_dSet_self]
        have e2 : applyDefaults (Json.str "code")
            (Json.obj (dSet (dSetDefault p "language" (.str "plain text"))
              "language" (.str "c++"))) =
            .obj (if dLookup (dSet (dSetDefault p "language" (.str "plain text"))
                  "language" (.str "c++")) "language" == some (Json.str "cpp")
                then dSet (dSet (dSetDefault p "language" (.str "plain text"))
                  "language" (.str "c++")) "language" (.str "c++")
                else dSet (dSetDefault p "language" (.str "plain text"))
                  "language" (.str "c++")) := by
          simp only [applyDefaults, hne, Bool.false_eq_true, if_false]
          rw [if_pos (by simp)]
          rw [dSetDefault_of_contains _ hcont]
        rw [e2, if_neg (by simp [dLookup_dSet_self])]
      · rw [if_neg hc]
        have hcont : dContains (dSetDefault p "language" (.str "plain text"))
            "language" = true := dContains_dSetDefault_self p _ _
        have e2 : applyDefaults (Json.str "code")
            (Json.obj (dSetDefault p "language" (.str "plain text"))) =
            .obj (if dLookup (dSetDefault p "language" (.str "plain text"))
                  "language" == some (Json.str "cpp")
                then dSet (dSetDefault p "language" (.str "plain text"))
                  "language" (.str "c++")
                else dSetDefault p "language" (.str "plain text")) := by
          simp only [applyDefaults, hne, Bool.false_eq_true, if_false]
          rw [if_pos (by simp)]
          rw [dSetDefault_of_contains _ hcont]
        rw [e2, if_neg (by simpa using hc)]
    · rw [applyDefaults_of_ne _ h1 h2, applyDefaults_of_ne _ h1 h2]

theorem attach_get_ne (blk : Json) (cl : List Json) (k : String)
    (hk : k ≠ "children") :
    jGet (pruneAttachChildren blk cl) k = jGet blk k := by
  unfold pruneAttachChildren
  split
  · exact jGet_jSet_ne blk "children" k _ (fun h => hk h.symm)
  · split
    · exact jGet_jErase_ne blk "children" k (fun h => hk h.symm)
    · rfl

theorem attach_get_children {kvs : List (String × Json)} (cl : List Json) :
    jGet (pruneAttachChildren (.obj kvs) cl) "children" =
      if cl.isEmpty then none else some (.arr cl) := by
  unfold pruneAttachChildren
  by_cases hcl : cl.isEmpty = true
  · rw [if_neg (by simpa using hcl), if_pos hcl]
    by_cases hc : jContains (Json.obj kvs) "children" = true
    · rw [if_pos hc]
      simp [jErase, jGet]
      exact dLookup_dErase_self
    · rw [if_neg hc]
      simp [jContains, dContains, Option.isSome_iff_exists] at hc
      have hn : dLookup kvs "children" = none := by
        cases hl : dLookup kvs "children" with
        | none => rfl
        | some w => exact absurd hl (hc w)
      simp [jGet, hn]
  · rw [if_pos (by simpa using hcl), if_neg hcl]
    simp [jSet, jGet, dLookup_dSet_self]

theorem pop_of_nonstr {blk : Json} (b1 : Json)
    (h : ∀ s, jGetD blk "type" .null ≠ .str s) :
    prunePopPayload blk b1 = b1 := by
  unfold prunePopPayload
  split
  · rename_i s hs
    exact absurd hs (h s)
  · rfl

theorem pop_of_empty {blk : Json} (b1 : Json)
    (h : jGetD blk "type" .null = Json.str "") :
    prunePopPayload blk b1 = b1 := by
  unfold prunePopPayload
  split
  · rename_i s hs
    rw [h] at hs
    cases hs
    rw [if_neg (by simp)]
  · rfl

theorem pop_of_not_obj {blk : Json} {s : String} (b1 : Json)
    (h : jGetD blk "type" .null = Json.str s)
    (hno : ∀ p, jGet b1 s ≠ some (.obj p)) :
    prunePopPayload blk b1 = b1 := by
  unfold prunePopPayload
  split
  · rename_i s' hs
    rw [h] at hs
    cases hs
    split
    · split
      · rename_i p hp
        exact absurd hp (hno p)
      · rfl
    · rfl
  · rfl

theorem pop_of_obj {blk : Json} {s : String} {b1 : Json}
    {p : List (String × Json)}
    (h : jGetD blk "type" .null = Json.str s) (hs : s ≠ "")
    (hp : jGet b1 s = some (.obj p)) :
    prunePopPayload blk b1 = jSet b1 s (.obj (dErase p "children")) := by
  unfold prunePopPayload
  split
  · rename_i s' heq
    rw [h] at heq
    cases heq
    rw [if_pos (by simp [hs, jContains_of_get hp])]
    split
    · rename_i q hq
      rw [hp] at hq
      simp at hq
      subst hq
      split
      · rfl
      · rename_i hnc
        simp [dContains, Option.isSome_iff_exists] at hnc
        have hn : dLookup p "children" = none := by
          cases hl : dLookup p "children" with
          | none => rfl
          | some w => exact absurd hl (hnc w)
        rw [dErase_eq_self_of_none hn]
        exact (jSet_eq_self_of_get hp).symm
    · rename_i hfun
      exact absurd hp (hfun p)
  · rename_i hfun
    exact absurd h (hfun s)

theorem pop_get_of_not_obj {blk b1 : Json} {k : String}
    (h : ∀ p, jGet b1 k ≠ some (.obj p)) :
    jGet (prunePopPayload blk b1) k = jGet b1 k := by
  unfold prunePopPayload
  split
  · rename_i s hs
    split
    · split
      · rename_i p hp
        split
        · by_cases hks : s = k
          · subst hks
            exact absurd hp (h p)
          · exact jGet_jSet_ne b1 s k _ hks
        · rfl
      · rfl
    · rfl
  · rfl

theorem prunePayload_eq {blk : Json} {s : String}
    (h : jGetD blk "type" .null = Json.str s) (hs : s ≠ "") :
    prunePayload blk = jGetD blk s (.obj []) := by
  unfold prunePayload
  split
  · rename_i s' heq
    rw [h] at heq
    cases heq
    rw [if_pos hs]
  · rename_i hfun
    exact absurd h (hfun s)

theorem prunePayload_of_empty {blk : Json}
    (h : jGetD blk "type" .null = Json.str "") :
    prunePayload blk = .obj [] := by
  unfold prunePayload
  split
  · rename_i s' heq
    rw [h] at heq
    cases heq
    rw [if_neg (by simp)]
  · rfl

theorem prunePayload_of_nonstr {blk : Json}
    (h : ∀ s, jGetD blk "type" .null ≠ .str s) :
    prunePayload blk = .obj [] := by
  unfold prunePayload
  split
  · rename_i s heq
    exact absurd heq (h s)
  · rfl

theorem childList_of_top_arr {blk : Json} {xs : List Json}
    (h : jGet blk "children" = some (.arr xs)) (hne : xs ≠ []) :
    childList blk = xs := by
  have htr : truthy (Json.arr xs) = true := by
    simp [truthy, hne]
  unfold childList
  rw [jGetD_of_jGet _ h]
  unfold pyOr
  rw [if_pos htr]
  rfl

theorem childList_of_none {blk : Json}
    (h1 : jGetD blk "children" .null = .null)
    (h2 : jGetD (prunePayload blk) "children" .null = .null) :
    childList blk = [] := by
  unfold childList
  rw [h1, h2]
  rfl

theorem mkBase_of_str (s : String) (pd : Json) :
    mkBase (Json.str s) pd =
      .obj (dSet [("object", .str "block"), ("type", .str s)] s pd) := rfl

theorem mkBase_of_nonstr {tv : Json} (pd : Json)
    (h : ∀ s, tv ≠ Json.str s) :
    mkBase tv pd = .obj [("object", .str "block"), ("type", tv)] := by
  unfold mkBase
  split
  · rename_i s
    exact absurd rfl (h s)
  · rfl

theorem map_attach_eq (l : List Json) (f : Json → Json) :
    (l.attach.map fun c => f c.1) = l.map f := by
  induction l with
  | nil => rfl
  | cons a as ih =>
    simp only [List.attach_cons, List.map_cons, List.map_map]
    congr 1

theorem transform_get_children {kvs : List (String × Json)} :
    jGet (pruneTransform (.obj kvs)) "children" =
      if (prune_empty_blocks (childList (.obj kvs))).isEmpty then none
      else some (.arr (prune_empty_blocks (childList (.obj kvs)))) := by
  unfold pruneTransform pruneAttach
  have ha := @attach_get_children kvs
    (prune_empty_blocks (childList (.obj kvs)))
  rw [pop_get_of_not_obj, ha]
  intro p hp
  rw [ha] at hp
  split at hp
  · cases hp
  · cases hp

theorem transform_get_ne (blk : Json) (k : String)
    (hk : k ≠ "children")
    (hks : ∀ s, jGetD blk "type" .null = .str s → k ≠ s) :
    jGet (pruneTransform blk) k = jGet blk k :=
  pruneTransform_frame blk k hk hks

theorem transform_get_type (blk : Json) :
    jGet (pruneTransform blk) "type" = jGet blk "type" := by
  by_cases ht : jGetD blk "type" .null = Json.str "type"
  · have hg : jGet blk "type" = some (.str "type") :=
      jGet_of_jGetD ht (by decide)
    unfold pruneTransform pruneAttach
    have hb1 : jGet (pruneAttachChildren blk
        (prune_empty_blocks (childList blk))) "type" = jGet blk "type" :=
      attach_get_ne blk _ "type" (by decide)
    rw [pop_of_not_obj _ ht, hb1]
    intro p hp
    rw [hb1, hg] at hp
    cases hp
  · exact transform_get_ne blk "type" (by decide)
      (fun s hs heq => ht (heq ▸ hs))

theorem transform_get_tag_obj {blk : Json} {s : String}
    {p : List (String × Json)}
    (ht : jGetD blk "type" .null = Json.str s) (hs : s ≠ "")
    (hsch : s ≠ "children")
    (hp : jGet blk s = some (.obj p)) :
    jGet (pruneTransform blk) s = some (.obj (dErase p "children")) := by
  unfold pruneTransform pruneAttach
  have hb1 : jGet (pruneAttachChildren blk
      (prune_empty_blocks (childList blk))) s = some (.obj p) := by
    rw [attach_get_ne blk _ s hsch, hp]
  rw [pop_of_obj ht hs hb1]
  exact jGet_jSet_self hb1

theorem transform_get_tag_not_obj {blk : Json} {s : String}
    (ht : jGetD blk "type" .null = Json.str s) (hsch : s ≠ "children")
    (hno : ∀ p, jGet blk s ≠ some (.obj p)) :
    jGet (pruneTransform blk) s = jGet blk s := by
  unfold pruneTransform pruneAttach
  have hb1 : jGet (pruneAttachChildren blk
      (prune_empty_blocks (childList blk))) s = jGet blk s :=
    attach_get_ne blk _ s hsch
  rw [pop_of_not_obj _ ht (fun p hp => hno p (hb1 ▸ hp)), hb1]

theorem transform_of_nonstr_type {blk : Json}
    (h : ∀ s, jGetD blk "type" .null ≠ .str s) :
    pruneTransform blk =
      pruneAttachChildren blk (prune_empty_blocks (childList blk)) := by
  unfold pruneTransform pruneAttach
  exact pop_of_nonstr _ h

theorem keepSpec_eq (blk : Json) :
    keepSpec blk =
      pruneKeepRaw blk (prune_empty_blocks (childList blk)) := by
  rw [keepSpec]
  unfold pruneKeepRaw
  rw [prune_filter_map, any_attach_eq, map_isEmpty, filter_isEmpty_eq]
  simp

theorem prune_singleton (b : Json) :
    prune_empty_blocks [b] =
      if keepSpec b then [pruneTransform b] else [] := by
  rw [prune_filter_map]
  by_cases h : keepSpec b = true
  · rw [if_pos h, List.filter_cons_of_pos h]
    rfl
  · rw [if_neg h, List.filter_cons_of_neg h]
    rfl

/-- A block that both phases of normalization leave alone: the fixpoint
invariant every `normalizeBlocks` output satisfies. -/
def FixB (b : Json) : Prop :=
  prune_empty_blocks [b] = [b] ∧ notion_blockify b = b

theorem FixB.keep {b : Json} (h : FixB b) : keepSpec b = true := by
  by_contra hk
  have h1 := h.1
  rw [prune_singleton, if_neg hk] at h1
  cases h1

theorem FixB.transform {b : Json} (h : FixB b) : pruneTransform b = b := by
  have h1 := h.1
  rw [prune_singleton, if_pos h.keep] at h1
  simpa using h1

theorem prune_eq_self_of_fix {ms : List Json} (h : ∀ m ∈ ms, FixB m) :
    prune_empty_blocks ms = ms := by
  rw [prune_filter_map]
  rw [List.filter_eq_self.mpr (fun m hm => (h m hm).keep)]
  have he : ms.map pruneTransform = ms.map id :=
    List.map_congr_left (fun m hm => (h m hm).transform)
  rw [he, List.map_id]

theorem map_blockify_eq_self_of_fix {ms : List Json}
    (h : ∀ m ∈ ms, FixB m) : ms.map notion_blockify = ms := by
  have he : ms.map notion_blockify = ms.map id :=
    List.map_congr_left (fun m hm => (h m hm).2)
  rw [he, List.map_id]

/-- A `children` value the Python `for` loop accepts: a list, or a falsy
value the `or`-chain replaces with the next candidate.  A truthy
non-list makes `prune_empty_blocks` raise while iterating it. -/
def listy : Json → Bool
  | .arr _ => true
  | v => !truthy v

/-- The inputs on which the Python normalizer returns at all: every block
the pruning recursion visits presents its top-level `children` as a list
or a falsy value.  (Inputs violating this raise `AttributeError` or
`TypeError` inside the recursion of sync_to_notion.py line 37 and never
reach the return at line 52.) -/
def wfChildren (blk : Json) : Bool :=
  listy (jGetD blk "children" .null) &&
    (childList blk).attach.all (fun c => wfChildren c.1)
termination_by sizeOf blk
decreasing_by
  have := mem_childList_sizeOf c.2
  omega

theorem wfChildren_top {blk : Json} (h : wfChildren blk = true) :
    listy (jGetD blk "children" .null) = true := by
  rw [wfChildren] at h
  simp only [Bool.and_eq_true] at h
  exact h.1

theorem wfChildren_child {blk c : Json} (h : wfChildren blk = true)
    (hc : c ∈ childList blk) : wfChildren c = true := by
  rw [wfChildren] at h
  simp only [Bool.and_eq_true] at h
  have h2 := h.2
  rw [List.all_eq_true] at h2
  exact h2 ⟨c, hc⟩ (List.mem_attach _ _)

theorem jGetD_of_not_obj {v : Json} (k : String) (d : Json)
    (h : ∀ q, v ≠ Json.obj q) : jGetD v k d = d := by
  cases v <;> first | rfl | exact absurd rfl (h _)

theorem dSet_dSet (kvs : List (String × Json)) (k : String) (v w : Json) :
    dSet (dSet kvs k v) k w = dSet kvs k w := by
  induction kvs with
  | nil => simp [dSet]
  | cons kv rest ih =>
    obtain ⟨k', u⟩ := kv
    rw [dSet]
    by_cases h : k' = k
    · rw [if_pos h, dSet, if_pos h, dSet, if_pos h]
    · rw [if_neg h, dSet, if_neg h, dSet, if_neg h, ih]

theorem blockifyPayload_of_nonstr {block tv : Json}
    (h : ∀ s, tv ≠ Json.str s) : blockifyPayload block tv = .obj [] := by
  unfold blockifyPayload
  split
  · rename_i s
    exact absurd rfl (h s)
  · rfl

theorem pop_skip_of_children_none {blk b1 : Json} {s : String} {w : Json}
    (ht : jGetD blk "type" .null = Json.str s)
    (hw : jGet b1 s = some w)
    (hwc : jGet w "children" = none) :
    prunePopPayload blk b1 = b1 := by
  unfold prunePopPayload
  split
  · rename_i s' heq
    rw [ht] at heq
    cases heq
    split
    · split
      · rename_i p hp
        rw [hw] at hp
        simp at hp
        subst hp
        simp only [jGet] at hwc
        rw [if_neg (by simp [dContains, hwc])]
      · rfl
    · rfl
  · rfl

/-- After pruning, the type payload of a block whose tag is an ordinary
string no longer holds a `children` key (the pop at line 44-45 removed
it, or it never was a dict), defaulting cannot reintroduce one, and its
`rich_text` entry is untouched. -/
theorem transform_payload_facts {kvs : List (String × Json)} {s : String}
    (ht : jGetD (Json.obj kvs) "type" .null = Json.str s)
    (hs1 : s ≠ "") (hs2 : s ≠ "children") :
    jGet (blockifyPayload (pruneTransform (.obj kvs)) (.str s))
        "children" = none ∧
    jGet (applyDefaults (.str s)
        (blockifyPayload (pruneTransform (.obj kvs)) (.str s)))
        "children" = none ∧
    jGetD (applyDefaults (.str s)
        (blockifyPayload (pruneTransform (.obj kvs)) (.str s)))
        "rich_text" (.arr []) =
      jGetD (prunePayload (.obj kvs)) "rich_text" (.arr []) := by
  have hpp : prunePayload (Json.obj kvs) =
      jGetD (Json.obj kvs) s (.obj []) := prunePayload_eq ht hs1
  have hbp : blockifyPayload (pruneTransform (.obj kvs)) (.str s) =
      jGetD (pruneTransform (.obj kvs)) s (.obj []) := rfl
  rw [hbp, hpp]
  cases hpv : jGet (Json.obj kvs) s with
  | none =>
    have hno : ∀ p, jGet (Json.obj kvs) s ≠ some (.obj p) := by
      rw [hpv]
      intro p h
      cases h
    have htg : jGet (pruneTransform (.obj kvs)) s = none := by
      rw [transform_get_tag_not_obj ht hs2 hno, hpv]
    have hW : jGetD (pruneTransform (.obj kvs)) s (.obj []) = .obj [] := by
      rw [jGetD_eq_getD, htg]
      rfl
    have hW2 : jGetD (Json.obj kvs) s (.obj []) = .obj [] := by
      rw [jGetD_eq_getD, hpv]
      rfl
    rw [hW, hW2]
    refine ⟨rfl, ?_, ?_⟩
    · rw [applyDefaults_children]
      rfl
    · rw [jGetD_congr (.arr [])
        (applyDefaults_get_ne _ _ _ (by decide) (by decide))]
  | some v =>
    have hW2 : jGetD (Json.obj kvs) s (.obj []) = v := jGetD_of_jGet _ hpv
    rw [hW2]
    by_cases hobj : ∃ p, v = Json.obj p
    · obtain ⟨p, rfl⟩ := hobj
      have htg := transform_get_tag_obj ht hs1 hs2 hpv
      have hW : jGetD (pruneTransform (.obj kvs)) s (.obj []) =
          .obj (dErase p "children") := jGetD_of_jGet _ htg
      rw [hW]
      refine ⟨?_, ?_, ?_⟩
      · show dLookup (dErase p "children") "children" = none
        exact dLookup_dErase_self
      · rw [applyDefaults_children]
        show dLookup (dErase p "children") "children" = none
        exact dLookup_dErase_self
      · rw [jGetD_congr (.arr [])
          (applyDefaults_get_ne _ _ _ (by decide) (by decide))]
        show (dLookup (dErase p "children") "rich_text").getD _ =
          (dLookup p "rich_text").getD _
        rw [dLookup_dErase_ne _ (by decide)]
    · have hvno : ∀ q, v ≠ Json.obj q := fun q hq => hobj ⟨q, hq⟩
      have hno : ∀ p, jGet (Json.obj kvs) s ≠ some (.obj p) := by
        rw [hpv]
        intro p h
        simp at h
        exact hvno p h
      have htg : jGet (pruneTransform (.obj kvs)) s = some v := by
        rw [transform_get_tag_not_obj ht hs2 hno, hpv]
      have hW : jGetD (pruneTransform (.obj kvs)) s (.obj []) = v :=
        jGetD_of_jGet _ htg
      have hA : applyDefaults (Json.str s) v = v :=
        applyDefaults_of_not_obj hvno
      rw [hW, hA]
      refine ⟨?_, ?_, rfl⟩
      · cases v <;> first | rfl | exact absurd rfl (hvno _)
      · cases v <;> first | rfl | exact absurd rfl (hvno _)

theorem blockify_of_falsy {block : Json}
    (h : truthy (blockifyChildrenV block) = false) :
    notion_blockify block =
      mkBase (jGetD block "type" .null)
        (applyDefaults (jGetD block "type" .null)
          (blockifyPayload block (jGetD block "type" .null))) := by
  rw [notion_blockify]
  split
  · rename_i cs hm
    rw [hm] at h
    have hcs : cs.isEmpty = true := by
      simpa [truthy] using h
    rw [dif_pos hcs]
  · rename_i hm
    rw [if_neg (by simp [h])]

theorem blockify_of_arr {block : Json} {cs : List Json}
    (hm : blockifyChildrenV block = .arr cs) (hne : cs ≠ []) :
    notion_blockify block =
      jSet (mkBase (jGetD block "type" .null)
          (applyDefaults (jGetD block "type" .null)
            (blockifyPayload block (jGetD block "type" .null))))
        "children" (.arr (cs.map notion_blockify)) := by
  rw [notion_blockify]
  split
  · rename_i cs' hm'
    rw [hm] at hm'
    cases hm'
    rw [dif_neg (by simpa using hne)]
    rw [map_attach_eq]
  · rename_i hfun
    exact ((hfun cs hm).elim)

/-- A wire-shaped block whose top-level `children` hold (already
normalized) fixpoint blocks is itself a fixpoint, as soon as the payload
pop leaves it alone and wire-shaping rebuilds it verbatim. -/
theorem fix_of_canonical {N : List (String × Json)} {mcs : List Json}
    (hN_ch : dLookup N "children" = some (.arr mcs))
    (hne : mcs ≠ [])
    (hfixm : ∀ m ∈ mcs, FixB m)
    (hpop : prunePopPayload (.obj N) (.obj N) = .obj N)
    (hrebuild : jSet (mkBase (jGetD (.obj N) "type" .null)
        (applyDefaults (jGetD (.obj N) "type" .null)
          (blockifyPayload (.obj N) (jGetD (.obj N) "type" .null))))
      "children" (.arr mcs) = .obj N) :
    FixB (.obj N) := by
  have hget : jGet (Json.obj N) "children" = some (.arr mcs) := hN_ch
  have hNcl : childList (Json.obj N) = mcs := childList_of_top_arr hget hne
  have hprune : prune_empty_blocks mcs = mcs := prune_eq_self_of_fix hfixm
  have hmap : mcs.map notion_blockify = mcs :=
    map_blockify_eq_self_of_fix hfixm
  have hemp : mcs.isEmpty = false := by
    simpa using hne
  have hkeepN : keepSpec (Json.obj N) = true := by
    rw [keepSpec_eq]
    unfold pruneKeepRaw
    rw [hNcl, hprune, hemp]
    simp
  have htrN : pruneTransform (Json.obj N) = Json.obj N := by
    unfold pruneTransform pruneAttach
    rw [hNcl, hprune]
    have hatt : pruneAttachChildren (Json.obj N) mcs = Json.obj N := by
      unfold pruneAttachChildren
      rw [if_pos (by simp [hemp])]
      exact jSet_eq_self_of_get hget
    rw [hatt]
    exact hpop
  have hcvv : blockifyChildrenV (Json.obj N) = .arr mcs := by
    unfold blockifyChildrenV
    rw [jGetD_eq_getD (Json.obj N) "children" Json.null, hget,
      Option.getD_some]
    unfold pyOr
    rw [if_pos (by simp [truthy, hne])]
  have hbfN : notion_blockify (Json.obj N) = Json.obj N := by
    rw [blockify_of_arr hcvv hne, hmap]
    exact hrebuild
  refine ⟨?_, hbfN⟩
  rw [prune_singleton, if_pos hkeepN, htrN]

theorem keepSpec_nonobj {blk : Json} (h : ∀ kvs, blk ≠ Json.obj kvs) :
    keepSpec blk = false := by
  have htv : jGetD blk "type" .null = .null := by
    cases blk <;> first | rfl | exact absurd rfl (h _)
  have hpp : prunePayload blk = .obj [] :=
    prunePayload_of_nonstr (fun s hs => by rw [htv] at hs; cases hs)
  have hcl : childList blk = [] := by
    refine childList_of_none ?_ (by rw [hpp]; rfl)
    cases blk <;> first | rfl | exact absurd rfl (h _)
  rw [keepSpec_eq]
  unfold pruneKeepRaw
  rw [htv, hpp, hcl]
  rw [prune_empty_blocks]
  rfl

/-- Fixpoint step, childless case: a kept block all of whose children
were pruned away is wire-shaped into a block that normalization leaves
alone.  Its keep reason (divider tag or meaningful text) survives because
the type tag and the payload's `rich_text` do. -/
theorem fix_step_empty {kvs : List (String × Json)}
    (hwf : wfChildren (.obj kvs) = true)
    (hkeep : keepSpec (.obj kvs) = true)
    (hcs : prune_empty_blocks (childList (.obj kvs)) = []) :
    FixB (notion_blockify (pruneTransform (.obj kvs))) := by
  have hAB : ((jGetD (Json.obj kvs) "type" .null == Json.str "divider")
      || has_meaningful_text (jGetD (prunePayload (.obj kvs))
        "rich_text" (.arr []))) = true := by
    have h := hkeep
    rw [keepSpec_eq] at h
    unfold pruneKeepRaw at h
    rw [hcs] at h
    simpa using h
  obtain ⟨s, ht, hs1, hs3, hs2⟩ : ∃ s,
      jGetD (Json.obj kvs) "type" .null = Json.str s ∧ s ≠ "" ∧
        s ≠ "type" ∧ s ≠ "children" := by
    cases htv : jGetD (Json.obj kvs) "type" .null with
    | str s =>
      rw [htv] at hAB
      refine ⟨s, rfl, ?_, ?_, ?_⟩
      · rintro rfl
        rw [prunePayload_of_empty htv] at hAB
        exact absurd hAB (by decide)
      · rintro rfl
        have hg : jGet (Json.obj kvs) "type" = some (.str "type") :=
          jGet_of_jGetD htv (by decide)
        have hp : prunePayload (Json.obj kvs) = .str "type" := by
          rw [prunePayload_eq htv (by decide), jGetD_of_jGet _ hg]
        rw [hp] at hAB
        exact absurd hAB (by decide)
      · rintro rfl
        have hp : prunePayload (Json.obj kvs) =
            jGetD (Json.obj kvs) "children" (.obj []) :=
          prunePayload_eq htv (by decide)
        rw [hp] at hAB
        have hmean : has_meaningful_text (jGetD (jGetD (Json.obj kvs)
            "children" (.obj [])) "rich_text" (.arr [])) = true := by
          simpa using hAB
        cases hv : jGet (Json.obj kvs) "children" with
        | none =>
          rw [jGetD_eq_getD (Json.obj kvs) "children" (.obj []), hv] at hmean
          exact absurd hmean (by decide)
        | some w =>
          rw [jGetD_of_jGet _ hv] at hmean
          have hwtop := wfChildren_top hwf
          rw [jGetD_of_jGet _ hv] at hwtop
          by_cases hwarr : ∃ xs, w = Json.arr xs
          · obtain ⟨xs, rfl⟩ := hwarr
            rw [jGetD_of_not_obj _ _ (fun q hq => by cases hq)] at hmean
            exact absurd hmean (by decide)
          · by_cases hwobj : ∃ p, w = Json.obj p
            · obtain ⟨p, rfl⟩ := hwobj
              cases p with
              | nil =>
                have he : jGetD (Json.obj ([] : List (String × Json)))
                    "rich_text" (.arr []) = .arr [] := rfl
                rw [he] at hmean
                exact absurd hmean (by decide)
              | cons kv0 p' =>
                have hl : listy (Json.obj (kv0 :: p')) = false := rfl
                rw [hl] at hwtop
                cases hwtop
            · have hvno : ∀ q, w ≠ Json.obj q := fun q hq => hwobj ⟨q, hq⟩
              rw [jGetD_of_not_obj _ _ hvno] at hmean
              exact absurd hmean (by decide)
    | null =>
      rw [htv, prunePayload_of_nonstr
        (fun u hu => by rw [htv] at hu; cases hu)] at hAB
      exact absurd hAB (by decide)
    | bool b =>
      rw [htv, prunePayload_of_nonstr
        (fun u hu => by rw [htv] at hu; cases hu)] at hAB
      cases b <;> exact absurd hAB (by decide)
    | num n =>
      rw [htv, prunePayload_of_nonstr
        (fun u hu => by rw [htv] at hu; cases hu)] at hAB
      rw [show (Json.num n == Json.str "divider") = false from rfl,
        show jGetD (Json.obj ([] : List (String × Json))) "rich_text"
          (Json.arr []) = Json.arr [] from rfl] at hAB
      exact absurd hAB (by decide)
    | arr xs =>
      rw [htv, prunePayload_of_nonstr
        (fun u hu => by rw [htv] at hu; cases hu)] at hAB
      rw [show (Json.arr xs == Json.str "divider") = false from rfl,
        show jGetD (Json.obj ([] : List (String × Json))) "rich_text"
          (Json.arr []) = Json.arr [] from rfl] at hAB
      exact absurd hAB (by decide)
    | obj p =>
      rw [htv, prunePayload_of_nonstr
        (fun u hu => by rw [htv] at hu; cases hu)] at hAB
      rw [show (Json.obj p == Json.str "divider") = false from rfl,
        show jGetD (Json.obj ([] : List (String × Json))) "rich_text"
          (Json.arr []) = Json.arr [] from rfl] at hAB
      exact absurd hAB (by decide)
  rw [ht] at hAB
  obtain ⟨hc1, hc2, hc3⟩ := transform_payload_facts ht hs1 hs2
  have htbT : jGetD (pruneTransform (.obj kvs)) "type" .null =
      Json.str s := by
    rw [jGetD_eq_getD, transform_get_type, ← jGetD_eq_getD, ht]
  have htbC : jGet (pruneTransform (.obj kvs)) "children" = none := by
    rw [transform_get_children, hcs]
    rfl
  have hcvv : blockifyChildrenV (pruneTransform (.obj kvs)) = .null := by
    unfold blockifyChildrenV
    rw [htbT]
    rw [jGetD_eq_getD (pruneTransform (Json.obj kvs)) "children" Json.null,
      htbC]
    rw [jGetD_eq_getD (blockifyPayload (pruneTransform (Json.obj kvs))
      (Json.str s)) "children" Json.null, hc1]
    rfl
  set pd := applyDefaults (Json.str s)
    (blockifyPayload (pruneTransform (.obj kvs)) (Json.str s)) with hpd
  set B := dSet [("object", Json.str "block"), ("type", Json.str s)] s pd
    with hBdef
  have hnb : notion_blockify (pruneTransform (.obj kvs)) = Json.obj B := by
    rw [blockify_of_falsy (by rw [hcvv]; rfl)]
    rw [htbT]
    rw [mkBase_of_str]
  rw [hnb]
  have hBtypeD : jGetD (Json.obj B) "type" .null = Json.str s := by
    show (dLookup B "type").getD .null = _
    rw [hBdef, dLookup_dSet_ne _ _ hs3]
    rfl
  have hBs : jGet (Json.obj B) s = some pd := by
    show dLookup B s = _
    rw [hBdef]
    exact dLookup_dSet_self _ _ _
  have hBch : jGet (Json.obj B) "children" = none := by
    show dLookup B "children" = _
    rw [hBdef, dLookup_dSet_ne _ _ hs2]
    rfl
  have hBpp : prunePayload (Json.obj B) = pd := by
    rw [prunePayload_eq hBtypeD hs1, jGetD_of_jGet _ hBs]
  have hBcl : childList (Json.obj B) = [] := by
    refine childList_of_none ?_ ?_
    · rw [jGetD_eq_getD, hBch]
      rfl
    · rw [hBpp, jGetD_eq_getD, hc2]
      rfl
  have hkeepB : keepSpec (Json.obj B) = true := by
    rw [keepSpec_eq]
    unfold pruneKeepRaw
    rw [hBcl, hBtypeD, hBpp]
    rw [prune_empty_blocks]
    rw [hc3]
    simpa using hAB
  have htrB : pruneTransform (Json.obj B) = Json.obj B := by
    unfold pruneTransform pruneAttach
    rw [hBcl]
    rw [prune_empty_blocks]
    have hatt : pruneAttachChildren (Json.obj B) [] = Json.obj B := by
      unfold pruneAttachChildren
      rw [if_neg (by simp)]
      rw [if_neg (by simp [jContains, dContains,
        show dLookup B "children" = none from hBch])]
    rw [hatt]
    exact pop_skip_of_children_none hBtypeD hBs hc2
  have hBbp : blockifyPayload (Json.obj B) (Json.str s) = pd := by
    show jGetD (Json.obj B) s (.obj []) = pd
    rw [jGetD_of_jGet _ hBs]
  have hcvvB : blockifyChildrenV (Json.obj B) = .null := by
    unfold blockifyChildrenV
    rw [hBtypeD, hBbp]
    rw [jGetD_eq_getD (Json.obj B) "children" Json.null, hBch]
    rw [jGetD_eq_getD pd "children" Json.null, hc2]
    rfl
  have hbfB : notion_blockify (Json.obj B) = Json.obj B := by
    rw [blockify_of_falsy (by rw [hcvvB]; rfl)]
    rw [hBtypeD, hBbp]
    rw [hpd, applyDefaults_idem, ← hpd]
    rw [mkBase_of_str, ← hBdef]
  refine ⟨?_, hbfB⟩
  rw [prune_singleton, if_pos hkeepB, htrB]

/-- Fixpoint step, children case: a block some of whose children survive
pruning is wire-shaped into a canonical block carrying the normalized
children at top level, which normalization leaves alone. -/
theorem fix_step_cons {kvs : List (String × Json)}
    (hcs : prune_empty_blocks (childList (.obj kvs)) ≠ [])
    (hfix : ∀ c ∈ (prune_empty_blocks (childList (.obj kvs))).map
      notion_blockify, FixB c) :
    FixB (notion_blockify (pruneTransform (.obj kvs))) := by
  have hmcs_ne : (prune_empty_blocks (childList (.obj kvs))).map
      notion_blockify ≠ [] := by
    simpa using hcs
  have htbC : jGet (pruneTransform (.obj kvs)) "children" =
      some (.arr (prune_empty_blocks (childList (.obj kvs)))) := by
    rw [transform_get_children, if_neg (by simpa using hcs)]
  have hcvv : blockifyChildrenV (pruneTransform (.obj kvs)) =
      .arr (prune_empty_blocks (childList (.obj kvs))) := by
    unfold blockifyChildrenV
    rw [jGetD_eq_getD (pruneTransform (Json.obj kvs)) "children" Json.null,
      htbC, Option.getD_some]
    unfold pyOr
    rw [if_pos (by simp [truthy, hcs])]
  have hnb := blockify_of_arr hcvv hcs
  have htbT : jGetD (pruneTransform (.obj kvs)) "type" .null =
      jGetD (Json.obj kvs) "type" .null := by
    rw [jGetD_eq_getD, transform_get_type, ← jGetD_eq_getD]
  by_cases hstr : ∃ s, jGetD (Json.obj kvs) "type" .null = Json.str s
  · obtain ⟨s, ht⟩ := hstr
    by_cases hsch : s = "children"
    · subst hsch
      rw [htbT, ht] at hnb
      have hbp : blockifyPayload (pruneTransform (.obj kvs))
          (Json.str "children") =
          .arr (prune_empty_blocks (childList (.obj kvs))) := by
        show jGetD (pruneTransform (.obj kvs)) "children" (.obj []) = _
        rw [jGetD_eq_getD, htbC, Option.getD_some]
      rw [hbp, applyDefaults_of_ne _ (by decide) (by decide),
        mkBase_of_str] at hnb
      rw [hnb]
      show FixB (.obj (dSet (dSet [("object", Json.str "block"),
        ("type", Json.str "children")] "children"
        (.arr (prune_empty_blocks (childList (.obj kvs))))) "children"
        (.arr ((prune_empty_blocks (childList (.obj kvs))).map
          notion_blockify))))
      rw [dSet_dSet]
      have hN_ch : dLookup (dSet [("object", Json.str "block"),
          ("type", Json.str "children")] "children"
          (.arr ((prune_empty_blocks (childList (.obj kvs))).map
            notion_blockify))) "children" =
          some (.arr ((prune_empty_blocks (childList (.obj kvs))).map
            notion_blockify)) := dLookup_dSet_self _ _ _
      have hNtypeD : jGetD (.obj (dSet [("object", Json.str "block"),
          ("type", Json.str "children")] "children"
          (.arr ((prune_empty_blocks (childList (.obj kvs))).map
            notion_blockify)))) "type" .null = Json.str "children" := by
        rw [jGetD_obj, dLookup_dSet_ne _ _ (by decide)]
        rfl
      refine fix_of_canonical hN_ch hmcs_ne hfix ?_ ?_
      · exact pop_skip_of_children_none hNtypeD hN_ch rfl
      · rw [hNtypeD]
        have hbp2 : blockifyPayload (.obj (dSet [("object", Json.str "block"),
            ("type", Json.str "children")] "children"
            (.arr ((prune_empty_blocks (childList (.obj kvs))).map
              notion_blockify)))) (Json.str "children") =
            .arr ((prune_empty_blocks (childList (.obj kvs))).map
              notion_blockify) := by
          rw [blockifyPayload_str, jGetD_obj, hN_ch]
          rfl
        rw [hbp2, applyDefaults_of_ne _ (by decide) (by decide),
          mkBase_of_str]
        exact jSet_eq_self_of_get (dLookup_dSet_self _ _ _)
    · by_cases hse : s = ""
      · subst hse
        rw [htbT, ht] at hnb
        rw [applyDefaults_of_ne _ (by decide) (by decide),
          mkBase_of_str] at hnb
        rw [hnb]
        refine fix_of_canonical (dLookup_dSet_self _ _ _) hmcs_ne hfix ?_ ?_
        · refine pop_of_empty _ ?_
          rw [jGetD_obj, dLookup_dSet_ne _ _ (by decide),
            dLookup_dSet_ne _ _ (by decide)]
          rfl
        · have hNtypeD : jGetD (.obj (dSet (dSet [("object",
              Json.str "block"), ("type", Json.str "")] ""
              (blockifyPayload (pruneTransform (.obj kvs)) (Json.str "")))
              "children" (.arr ((prune_empty_blocks
                (childList (.obj kvs))).map notion_blockify))))
              "type" .null = Json.str "" := by
            rw [jGetD_obj, dLookup_dSet_ne _ _ (by decide),
              dLookup_dSet_ne _ _ (by decide)]
            rfl
          rw [hNtypeD]
          have hbp2 : blockifyPayload (.obj (dSet (dSet [("object",
              Json.str "block"), ("type", Json.str "")] ""
              (blockifyPayload (pruneTransform (.obj kvs)) (Json.str "")))
              "children" (.arr ((prune_empty_blocks
                (childList (.obj kvs))).map notion_blockify))))
              (Json.str "") =
              blockifyPayload (pruneTransform (.obj kvs)) (Json.str "") := by
            rw [blockifyPayload_str, jGetD_obj,
              dLookup_dSet_ne _ _ (by decide), dLookup_dSet_self]
            rfl
          rw [hbp2, applyDefaults_of_ne _ (by decide) (by decide),
            mkBase_of_str]
          rfl
      · obtain ⟨hc1, hc2, hc3⟩ := transform_payload_facts ht hse hsch
        rw [htbT, ht, mkBase_of_str] at hnb
        rw [hnb]
        have hN_s : dLookup (dSet (dSet [("object", Json.str "block"),
            ("type", Json.str s)] s (applyDefaults (Json.str s)
              (blockifyPayload (pruneTransform (.obj kvs)) (Json.str s))))
            "children" (.arr ((prune_empty_blocks
              (childList (.obj kvs))).map notion_blockify))) s =
            some (applyDefaults (Json.str s)
              (blockifyPayload (pruneTransform (.obj kvs))
                (Json.str s))) := by
          rw [dLookup_dSet_ne _ _ (fun he => hsch he.symm)]
          exact dLookup_dSet_self _ _ _
        have hNtypeD : jGetD (.obj (dSet (dSet [("object",
            Json.str "block"), ("type", Json.str s)] s
            (applyDefaults (Json.str s) (blockifyPayload
              (pruneTransform (.obj kvs)) (Json.str s))))
            "children" (.arr ((prune_empty_blocks
              (childList (.obj kvs))).map notion_blockify))))
            "type" .null = Json.str s := by
          rw [jGetD_obj, dLookup_dSet_ne _ _ (by decide)]
          by_cases hst : s = "type"
          · subst hst
            rw [dLookup_dSet_self]
            have hg : jGet (Json.obj kvs) "type" = some (.str "type") :=
              jGet_of_jGetD ht (by decide)
            have htg : jGet (pruneTransform (.obj kvs)) "type" =
                some (.str "type") := by
              rw [transform_get_type]
              exact hg
            have hbp : blockifyPayload (pruneTransform (.obj kvs))
                (Json.str "type") = .str "type" := by
              show jGetD (pruneTransform (.obj kvs)) "type" (.obj []) = _
              exact jGetD_of_jGet _ htg
            rw [hbp, applyDefaults_of_not_obj (fun q hq => by cases hq)]
            rfl
          · rw [dLookup_dSet_ne _ _ hst]
            rfl
        refine fix_of_canonical (dLookup_dSet_self _ _ _) hmcs_ne hfix ?_ ?_
        · exact pop_skip_of_children_none hNtypeD hN_s hc2
        · rw [hNtypeD]
          have hbp2 : blockifyPayload (.obj (dSet (dSet [("object",
              Json.str "block"), ("type", Json.str s)] s
              (applyDefaults (Json.str s) (blockifyPayload
                (pruneTransform (.obj kvs)) (Json.str s))))
              "children" (.arr ((prune_empty_blocks
                (childList (.obj kvs))).map notion_blockify))))
              (Json.str s) =
              applyDefaults (Json.str s) (blockifyPayload
                (pruneTransform (.obj kvs)) (Json.str s)) := by
            rw [blockifyPayload_str, jGetD_obj, hN_s]
            rfl
          rw [hbp2, applyDefaults_idem, mkBase_of_str]
          rfl
  · have hnostr : ∀ u, jGetD (Json.obj kvs) "type" .null ≠ Json.str u :=
      fun u hu => hstr ⟨u, hu⟩
    rw [htbT] at hnb
    rw [blockifyPayload_of_nonstr hnostr,
      applyDefaults_of_ne _ (fun he => hnostr "to_do" he)
        (fun he => hnostr "code" he),
      mkBase_of_nonstr _ hnostr] at hnb
    rw [hnb]
    have hNtypeD : jGetD (.obj (dSet [("object", Json.str "block"),
        ("type", jGetD (Json.obj kvs) "type" .null)] "children"
        (.arr ((prune_empty_blocks (childList (.obj kvs))).map
          notion_blockify)))) "type" .null =
        jGetD (Json.obj kvs) "type" .null := by
      rw [jGetD_obj, dLookup_dSet_ne _ _ (by decide)]
      rfl
    refine fix_of_canonical (dLookup_dSet_self _ _ _) hmcs_ne hfix ?_ ?_
    · exact pop_of_nonstr _
        (fun u hu => hnostr u (hNtypeD.symm.trans hu))
    · rw [hNtypeD]
      rw [blockifyPayload_of_nonstr hnostr,
        applyDefaults_of_ne _ (fun he => hnostr "to_do" he)
          (fun he => hnostr "code" he),
        mkBase_of_nonstr _ hnostr]
      rfl

/-- One step of the idempotence argument: wire-shaping a kept, pruned
block yields a fixpoint of normalization, provided its (already
normalized) children are fixpoints. -/
theorem normalize_fix_step (blk : Json)
    (hwf : wfChildren blk = true)
    (hkeep : keepSpec blk = true)
    (hfix : ∀ c ∈ normalizeBlocks (childList blk), FixB c) :
    FixB (notion_blockify (pruneTransform blk)) := by
  cases blk with
  | obj kvs =>
    by_cases hcs : prune_empty_blocks (childList (.obj kvs)) = []
    · exact fix_step_empty hwf hkeep hcs
    · exact fix_step_cons hcs hfix
  | null =>
    rw [keepSpec_nonobj (fun q h => by cases h)] at hkeep
    cases hkeep
  | bool b =>
    rw [keepSpec_nonobj (fun q h => by cases h)] at hkeep
    cases hkeep
  | num n =>
    rw [keepSpec_nonobj (fun q h => by cases h)] at hkeep
    cases hkeep
  | str u =>
    rw [keepSpec_nonobj (fun q h => by cases h)] at hkeep
    cases hkeep
  | arr xs =>
    rw [keepSpec_nonobj (fun q h => by cases h)] at hkeep
    cases hkeep

/-- Every block `normalizeBlocks` emits is a fixpoint of normalization
(induction on the size of the input forest). -/
theorem normalize_all_fix : ∀ (n : Nat) (bs : List Json), sizeOf bs ≤ n →
    (∀ b ∈ bs, wfChildren b = true) →
    ∀ x ∈ normalizeBlocks bs, FixB x := by
  intro n
  induction n with
  | zero =>
    intro bs hsz hwf x hx
    exfalso
    have h1 := jsonList_one_le_sizeOf bs
    omega
  | succ n ih =>
    intro bs hsz hwf x hx
    unfold normalizeBlocks at hx
    rw [prune_filter_map, List.map_map] at hx
    obtain ⟨blk, hblk, hxe⟩ := List.mem_map.mp hx
    have hmem := (List.mem_filter.mp hblk).1
    have hkeep := (List.mem_filter.mp hblk).2
    have hszc : sizeOf (childList blk) ≤ n := by
      have h1 := List.sizeOf_lt_of_mem hmem
      have h2 := childList_sizeOf blk
      omega
    have hstep := normalize_fix_step blk (hwf blk hmem) hkeep
      (ih (childList blk) hszc
        (fun c hc => wfChildren_child (hwf blk hmem) hc))
    rw [← hxe]
    exact hstep

/-- Claim C7: the normalization composed in `load_blocks_from_json`
(pruning, then wire-shaping every survivor) is idempotent: applying it a
second time to its own output returns that output unchanged.  The
hypothesis restricts the statement to the inputs on which the Python
normalizer returns at all — on any input with a truthy non-list
`children` value along the visited tree, `prune_empty_blocks` raises
while iterating (spec §7: normalization raises on a non-sequence where a
sequence is required) and produces no output to re-normalize. -/
theorem C7_normalization_idempotent (bs : List Json)
    (hwf : ∀ b ∈ bs, wfChildren b = true) :
    normalizeBlocks (normalizeBlocks bs) = normalizeBlocks bs := by
  have hfix : ∀ x ∈ normalizeBlocks bs, FixB x :=
    normalize_all_fix (sizeOf bs) bs le_rfl hwf
  show (prune_empty_blocks (normalizeBlocks bs)).map notion_blockify = _
  rw [prune_eq_self_of_fix hfix]
  exact map_blockify_eq_self_of_fix hfix

/-- Witness for C7 at a concrete two-block list: an empty divider and a
paragraph with one text span. -/
theorem C7_normalization_idempotent_witness :
    normalizeBlocks (normalizeBlocks
      [.obj [("type", Json.str "divider"), ("divider", Json.obj [])],
       .obj [("type", Json.str "paragraph"),
         ("paragraph", Json.obj [("rich_text",
           Json.arr [.obj [("plain_text", Json.str "hello")]])])]]) =
    normalizeBlocks
      [.obj [("type", Json.str "divider"), ("divider", Json.obj [])],
       .obj [("type", Json.str "paragraph"),
         ("paragraph", Json.obj [("rich_text",
           Json.arr [.obj [("plain_text", Json.str "hello")]])])]] := by
  apply C7_normalization_idempotent
  intro b hb
  simp only [List.mem_cons, List.not_mem_nil, or_false] at hb
  rcases hb with rfl | rfl
  · rw [wfChildren]
    decide
  · rw [wfChildren]
    decide
